import Mathlib

/-!
Verification development for the PixelPlace frontend's remote-grid
synchronization core (`place-ui`).

The definitions below are a shallow embedding of the TypeScript sources:

* `src/store/canvasStore.ts` — the zustand grid cache (chunks, loading
  marks, viewport, `setChunk`, `setChunkLoading`, `updatePixel`,
  `getVisibleChunks`);
* `src/components/canvas/Canvas.tsx` — the chunk-loading path
  (`loadVisibleChunks`) and the periodic refresh path;
* `src/api/canvasService.ts` — `EthersCanvasService` (`safeContractCall`,
  `getDimensions`, `getCanvasSection`, `onPixelPainted` reconnection);
* `src/components/providers/CanvasServiceProvider.tsx` — the
  initialization retry / mock-fallback controller;
* `src/lib/web3utils.ts` — `ThrottledProvider.send` (known-bad selector
  short-circuit, batch-size retry, timeout fallbacks) and `paintPixel`;
* `src/config/contracts.ts` / `src/config/constants.ts` — colour
  conversions and default configuration values.

JavaScript numbers are modelled as `Int` (all the values involved are
integers) except viewport scale/offsets and window dimensions, which are
modelled as `ℚ`; `Math.floor (a / b)` and `Math.ceil (a / b)` become
`Int.floor` / `Int.ceil` of rational division.  JavaScript strings are
modelled as `String` where only equality matters and as `List Char` where
prefix/substring structure matters.  JavaScript objects used as string
keyed dictionaries (`Record<string, T>`) are modelled as association
lists with the spread-update semantics of `{...m, [k]: v}` (`jsSet`
below).  Promise-valued functions become `Except`-valued functions, with
the outcome of each remote interaction supplied as an explicit argument
or oracle.
-/

/-- Pixel, from `src/types/index.ts`: `{x, y, color, lastPainted?}`. -/
structure Pixel where
  x : Int
  y : Int
  color : String
  lastPainted : Option Int
deriving DecidableEq

/-- CanvasChunk, from `src/types/index.ts`: `Pixel[][]`. -/
abbrev CanvasChunk := List (List Pixel)

/-- ViewportState, from `src/types/index.ts`.  `scale`, `offsetX`,
`offsetY` are JavaScript numbers used in fractional arithmetic, modelled
as `ℚ`. -/
structure ViewportState where
  scale : ℚ
  offsetX : ℚ
  offsetY : ℚ
  selectedX : Option Int
  selectedY : Option Int
deriving DecidableEq

/-- The canvas store state, from `src/store/canvasStore.ts`
(`CanvasStore` minus the action closures).  `chunks` and
`loadingChunks` are `Record<string, _>` objects, modelled as association
lists keyed by the chunk-key string. -/
structure StoreState where
  canvasWidth : Int
  canvasHeight : Int
  chunkSize : Int
  chunks : List (String × CanvasChunk)
  loadingChunks : List (String × Bool)
  viewport : ViewportState
deriving DecidableEq

/-- Update semantics of the JavaScript object spread `{...m, [k]: v}`:
if `k` is already a key its binding is replaced in place (JavaScript
objects have unique keys, so replacing the first occurrence is the
general case), otherwise the binding is appended at the end. -/
def jsSet {α : Type} : List (String × α) → String → α → List (String × α)
  | [], k, v => [(k, v)]
  | p :: m, k, v => if p.1 = k then (k, v) :: m else p :: jsSet m k v

/-- getChunkKey, from `src/store/canvasStore.ts`:
`(startX, startY) => startX + "," + startY` (template literal). -/
def getChunkKey (startX startY : Int) : String :=
  toString startX ++ "," ++ toString startY

/-- setChunk, from `src/store/canvasStore.ts` lines 54-66: one `set`
call installs the chunk under its key and clears the loading mark for
that key, producing the next observable state in a single update. -/
def setChunk (s : StoreState) (startX startY : Int) (chunk : CanvasChunk) :
    StoreState :=
  let chunkKey := getChunkKey startX startY
  { s with
    chunks := jsSet s.chunks chunkKey chunk
    loadingChunks := jsSet s.loadingChunks chunkKey false }

/-- setChunkLoading, from `src/store/canvasStore.ts` lines 68-76. -/
def setChunkLoading (s : StoreState) (startX startY : Int) (isLoading : Bool) :
    StoreState :=
  { s with
    loadingChunks := jsSet s.loadingChunks (getChunkKey startX startY) isLoading }

/-- setDimensions, from `src/store/canvasStore.ts` line 52. -/
def setDimensions (s : StoreState) (width height : Int) : StoreState :=
  { s with canvasWidth := width, canvasHeight := height }

/-- Math.floor (a / b) on JavaScript numbers holding integers: for
`b ≠ 0` the floor of the real quotient is exactly integer F-division. -/
def jsFloorDiv (a b : Int) : Int := a.fdiv b

/-- Math.ceil (a / b) on JavaScript numbers holding integers: for
`b ≠ 0`, `Math.ceil (a / b) = -Math.floor (-a / b)`. -/
def jsCeilDiv (a b : Int) : Int := -((-a).fdiv b)

/-- JavaScript array indexing `l[i]` (an out-of-range or negative index
reads as `undefined`, i.e. `none`). -/
def jsIndex {α : Type} (l : List α) (i : Int) : Option α :=
  if i < 0 then none else l[i.toNat]?

/-- The inner block of updatePixel (`src/store/canvasStore.ts` lines
90-104): deep-copy the chunk (the identity under value semantics) and,
when both the row and the cell exist, overwrite the pixel at the
relative position with a copy carrying the new `color` and
`lastPainted := Date.now()` (the current time is passed as `now`). -/
def writePixel (chunk : CanvasChunk) (relativeX relativeY : Int)
    (color : String) (now : Int) : CanvasChunk :=
  match jsIndex chunk relativeY with
  | none => chunk
  | some row =>
    match jsIndex row relativeX with
    | none => chunk
    | some px =>
      chunk.set relativeY.toNat
        (row.set relativeX.toNat
          { px with color := color, lastPainted := some now })

/-- updatePixel, from `src/store/canvasStore.ts` lines 78-113.  The
event-path merge: locate the chunk containing `(x, y)`; if it is not
cached, return the state unchanged (the update is discarded, not
queued); otherwise install the chunk produced by `writePixel`. -/
def updatePixel (s : StoreState) (x y : Int) (color : String) (now : Int) :
    StoreState :=
  let chunkStartX := jsFloorDiv x s.chunkSize * s.chunkSize
  let chunkStartY := jsFloorDiv y s.chunkSize * s.chunkSize
  let chunkKey := getChunkKey chunkStartX chunkStartY
  match s.chunks.lookup chunkKey with
  | none => s
  | some chunk =>
    { s with
      chunks := jsSet s.chunks chunkKey
        (writePixel chunk (x - chunkStartX) (y - chunkStartY) color now) }

/-- The initial store state, from `src/store/canvasStore.ts` lines 34-49
and the defaults in `src/config/constants.ts` (width 100, height 100,
chunk size 20). -/
def initialStore : StoreState :=
  { canvasWidth := 100
    canvasHeight := 100
    chunkSize := 20
    chunks := []
    loadingChunks := []
    viewport :=
      { scale := 10, offsetX := 0, offsetY := 0
        selectedX := none, selectedY := none } }

/-! Basic lemmas about `jsSet`. -/

theorem jsSet_lookup_eq {α : Type} (m : List (String × α)) (k : String) (v : α) :
    (jsSet m k v).lookup k = some v := by
  induction m with
  | nil => simp [jsSet, List.lookup]
  | cons p m ih =>
    by_cases hp : p.1 = k
    · simp [jsSet, hp, List.lookup]
    · have hne : (k == p.1) = false := beq_eq_false_iff_ne.2 fun he => hp he.symm
      simp [jsSet, hp, List.lookup, hne, ih]

theorem jsSet_lookup_ne {α : Type} (m : List (String × α)) (k k' : String)
    (v : α) (hne : k' ≠ k) : (jsSet m k v).lookup k' = m.lookup k' := by
  induction m with
  | nil =>
    have h1 : (k' == k) = false := beq_eq_false_iff_ne.2 hne
    simp [jsSet, List.lookup, h1]
  | cons p m ih =>
    by_cases hp : p.1 = k
    · have h1 : (k' == k) = false := beq_eq_false_iff_ne.2 hne
      have h2 : (k' == p.1) = false := beq_eq_false_iff_ne.2 (hp ▸ hne)
      simp [jsSet, hp, List.lookup, h1, h2]
    · by_cases hk' : k' = p.1
      · simp [jsSet, hp, List.lookup, hk']
      · have h1 : (k' == p.1) = false := beq_eq_false_iff_ne.2 hk'
        simp [jsSet, hp, List.lookup, h1, ih]

theorem jsSet_mem {α : Type} {m : List (String × α)} {k : String} {v : α}
    {p : String × α} (hp : p ∈ jsSet m k v) : p.1 = k ∨ p ∈ m := by
  induction m with
  | nil => simp [jsSet] at hp; left; rw [hp]
  | cons q m ih =>
    by_cases hq : q.1 = k
    · simp [jsSet, hq] at hp
      rcases hp with h | h
      · left; rw [h]
      · right; exact List.mem_cons_of_mem _ h
    · simp [jsSet, hq] at hp
      rcases hp with h | h
      · right; rw [h]; exact List.mem_cons_self _ _
      · rcases ih h with h1 | h1
        · left; exact h1
        · right; exact List.mem_cons_of_mem _ h1

theorem jsSet_idem {α : Type} (m : List (String × α)) (k : String) (v : α) :
    jsSet (jsSet m k v) k v = jsSet m k v := by
  induction m with
  | nil => simp [jsSet]
  | cons p m ih =>
    by_cases hp : p.1 = k
    · simp [jsSet, hp]
    · simp [jsSet, hp, ih]

/-- C9.  Merging a chunk twice with identical data is idempotent: the
store state after calling `setChunk` twice with the same arguments is
identical to the state after calling it once
(`src/store/canvasStore.ts` lines 54-66). -/
theorem setChunk_idempotent (s : StoreState) (startX startY : Int)
    (chunk : CanvasChunk) :
    setChunk (setChunk s startX startY chunk) startX startY chunk =
      setChunk s startX startY chunk := by
  unfold setChunk
  simp only [jsSet_idem]

/-! Claim C10: the frame/effect of `updatePixel`. -/

/-- Cell access in a rectangular array: row `r`, column `q`. -/
def cellAt {α : Type} (g : List (List α)) (r q : Nat) : Option α :=
  g[r]?.bind fun row => row[q]?

/-- The chunk key of the chunk containing cell `(x, y)`, exactly as
`updatePixel` computes it. -/
def pixelChunkKey (s : StoreState) (x y : Int) : String :=
  getChunkKey (jsFloorDiv x s.chunkSize * s.chunkSize)
    (jsFloorDiv y s.chunkSize * s.chunkSize)

theorem jsFloorDiv_bounds (x c : Int) (hc : 0 < c) :
    jsFloorDiv x c * c ≤ x ∧ x < jsFloorDiv x c * c + c := by
  unfold jsFloorDiv
  rw [Int.fdiv_eq_ediv _ hc.le]
  refine ⟨Int.ediv_mul_le x hc.ne', ?_⟩
  have h := Int.lt_ediv_add_one_mul_self x hc
  have he : (x / c + 1) * c = x / c * c + c := by ring
  rw [he] at h
  exact h

theorem writePixel_spec (chunk : CanvasChunk) (relX relY : Int)
    (color : String) (now : Int) (hX : 0 ≤ relX) (hY : 0 ≤ relY) :
    (writePixel chunk relX relY color now).length = chunk.length ∧
    (∀ r : Nat, (writePixel chunk relX relY color now)[r]?.map List.length =
      chunk[r]?.map List.length) ∧
    (∀ r q : Nat, cellAt (writePixel chunk relX relY color now) r q =
      if r = relY.toNat ∧ q = relX.toNat then
        (cellAt chunk r q).map
          (fun px => { px with color := color, lastPainted := some now })
      else cellAt chunk r q) := by
  have hY' : ¬ relY < 0 := not_lt.2 hY
  have hX' : ¬ relX < 0 := not_lt.2 hX
  cases hrow : chunk[relY.toNat]? with
  | none =>
    have hw : writePixel chunk relX relY color now = chunk := by
      unfold writePixel jsIndex
      simp only [if_neg hY', hrow]
    rw [hw]
    refine ⟨rfl, fun r => rfl, fun r q => ?_⟩
    split
    · next hcond =>
      rcases hcond with ⟨hr, hq⟩
      subst hr; subst hq
      simp [cellAt, hrow]
    · rfl
  | some row =>
    cases hcell : row[relX.toNat]? with
    | none =>
      have hw : writePixel chunk relX relY color now = chunk := by
        unfold writePixel jsIndex
        simp only [if_neg hY', if_neg hX', hrow, hcell]
      rw [hw]
      refine ⟨rfl, fun r => rfl, fun r q => ?_⟩
      split
      · next hcond =>
        rcases hcond with ⟨hr, hq⟩
        subst hr; subst hq
        simp [cellAt, hrow, hcell]
      · rfl
    | some px =>
      have hw : writePixel chunk relX relY color now =
          chunk.set relY.toNat (row.set relX.toNat
            { px with color := color, lastPainted := some now }) := by
        unfold writePixel jsIndex
        simp only [if_neg hY', if_neg hX', hrow, hcell]
      rw [hw]
      have hYlt : relY.toNat < chunk.length := by
        rcases List.getElem?_eq_some.1 hrow with ⟨h, _⟩
        exact h
      have hXlt : relX.toNat < row.length := by
        rcases List.getElem?_eq_some.1 hcell with ⟨h, _⟩
        exact h
      refine ⟨by simp [List.length_set], ?_, ?_⟩
      · intro r
        rw [List.getElem?_set]
        by_cases hr : relY.toNat = r
        · subst hr
          simp [hYlt, hrow, List.length_set]
        · simp [hr]
      · intro r q
        by_cases hr : r = relY.toNat
        · subst hr
          by_cases hq : q = relX.toNat
          · subst hq
            rw [if_pos ⟨rfl, rfl⟩]
            simp only [cellAt]
            rw [List.getElem?_set_self hYlt, hrow]
            simp only [Option.some_bind]
            rw [List.getElem?_set_self hXlt, hcell]
            simp
          · rw [if_neg (fun hcon => hq hcon.2)]
            simp only [cellAt]
            rw [List.getElem?_set_self hYlt, hrow]
            simp only [Option.some_bind]
            rw [List.getElem?_set_ne (fun h => hq h.symm)]
        · rw [if_neg (fun hcon => hr hcon.1)]
          simp only [cellAt]
          rw [List.getElem?_set_ne (fun h => hr h.symm)]

/-- C10.  Frame/effect of `updatePixel(x, y, color)`
(`src/store/canvasStore.ts` lines 78-113): if the chunk containing
`(x, y)` is not cached the store is unchanged; otherwise only the chunk
under that key is replaced, everything else (loading marks, dimensions,
viewport, other chunks) is untouched, the replaced chunk has the same
shape, and only the cell at the relative position of `(x, y)` changes —
to a copy of the old pixel with the new `color` and
`lastPainted = now`. -/
theorem updatePixel_frame (s : StoreState) (x y : Int) (color : String)
    (now : Int) (hc : 0 < s.chunkSize) :
    (s.chunks.lookup (pixelChunkKey s x y) = none →
      updatePixel s x y color now = s) ∧
    ∀ ch, s.chunks.lookup (pixelChunkKey s x y) = some ch →
      ((updatePixel s x y color now).loadingChunks = s.loadingChunks ∧
       (updatePixel s x y color now).canvasWidth = s.canvasWidth ∧
       (updatePixel s x y color now).canvasHeight = s.canvasHeight ∧
       (updatePixel s x y color now).chunkSize = s.chunkSize ∧
       (updatePixel s x y color now).viewport = s.viewport) ∧
      (∀ k, k ≠ pixelChunkKey s x y →
        (updatePixel s x y color now).chunks.lookup k = s.chunks.lookup k) ∧
      ∃ ch',
        (updatePixel s x y color now).chunks.lookup (pixelChunkKey s x y) =
          some ch' ∧
        ch'.length = ch.length ∧
        (∀ r : Nat, ch'[r]?.map List.length = ch[r]?.map List.length) ∧
        (∀ r q : Nat, cellAt ch' r q =
          if r = (y - jsFloorDiv y s.chunkSize * s.chunkSize).toNat ∧
             q = (x - jsFloorDiv x s.chunkSize * s.chunkSize).toNat then
            (cellAt ch r q).map
              (fun px => { px with color := color, lastPainted := some now })
          else cellAt ch r q) := by
  have hbx := jsFloorDiv_bounds x s.chunkSize hc
  have hby := jsFloorDiv_bounds y s.chunkSize hc
  constructor
  · intro hnone
    simp only [pixelChunkKey] at hnone
    simp only [updatePixel]
    rw [hnone]
  · intro ch hsome
    simp only [pixelChunkKey] at hsome
    simp only [updatePixel]
    rw [hsome]
    refine ⟨⟨rfl, rfl, rfl, rfl, rfl⟩, ?_, ?_⟩
    · intro k hk
      simp only [pixelChunkKey] at hk
      exact jsSet_lookup_ne _ _ _ _ hk
    · have hspec := writePixel_spec ch
        (x - jsFloorDiv x s.chunkSize * s.chunkSize)
        (y - jsFloorDiv y s.chunkSize * s.chunkSize)
        color now (by omega) (by omega)
      exact ⟨_, jsSet_lookup_eq _ _ _, hspec.1, hspec.2.1, hspec.2.2⟩

/-- Witness for C10: a concrete store holding one 2×2 chunk at key
`"0,0"` with chunk size 20; `updatePixel 1 1` satisfies the frame
property. -/
def witnessPixel (px py : Int) : Pixel :=
  { x := px, y := py, color := "#EFEFEF", lastPainted := none }

def witnessStore : StoreState :=
  { canvasWidth := 100
    canvasHeight := 100
    chunkSize := 20
    chunks := [("0,0",
      [[witnessPixel 0 0, witnessPixel 1 0],
       [witnessPixel 0 1, witnessPixel 1 1]])]
    loadingChunks := []
    viewport :=
      { scale := 10, offsetX := 0, offsetY := 0
        selectedX := none, selectedY := none } }

theorem updatePixel_frame_witness :
    0 < witnessStore.chunkSize ∧
    ((witnessStore.chunks.lookup (pixelChunkKey witnessStore 1 1) = none →
      updatePixel witnessStore 1 1 "#FF0000" 99 = witnessStore) ∧
    ∀ ch, witnessStore.chunks.lookup (pixelChunkKey witnessStore 1 1) = some ch →
      ((updatePixel witnessStore 1 1 "#FF0000" 99).loadingChunks = witnessStore.loadingChunks ∧
       (updatePixel witnessStore 1 1 "#FF0000" 99).canvasWidth = witnessStore.canvasWidth ∧
       (updatePixel witnessStore 1 1 "#FF0000" 99).canvasHeight = witnessStore.canvasHeight ∧
       (updatePixel witnessStore 1 1 "#FF0000" 99).chunkSize = witnessStore.chunkSize ∧
       (updatePixel witnessStore 1 1 "#FF0000" 99).viewport = witnessStore.viewport) ∧
      (∀ k, k ≠ pixelChunkKey witnessStore 1 1 →
        (updatePixel witnessStore 1 1 "#FF0000" 99).chunks.lookup k = witnessStore.chunks.lookup k) ∧
      ∃ ch',
        (updatePixel witnessStore 1 1 "#FF0000" 99).chunks.lookup (pixelChunkKey witnessStore 1 1) =
          some ch' ∧
        ch'.length = ch.length ∧
        (∀ r : Nat, ch'[r]?.map List.length = ch[r]?.map List.length) ∧
        (∀ r q : Nat, cellAt ch' r q =
          if r = (1 - jsFloorDiv 1 witnessStore.chunkSize * witnessStore.chunkSize).toNat ∧
             q = (1 - jsFloorDiv 1 witnessStore.chunkSize * witnessStore.chunkSize).toNat then
            (cellAt ch r q).map
              (fun px => { px with color := "#FF0000", lastPainted := some (99 : Int) })
          else cellAt ch r q)) :=
  ⟨by decide, updatePixel_frame witnessStore 1 1 "#FF0000" 99 (by decide)⟩

/-! Claim C1: the viewport-to-chunk covering algorithm
(`getVisibleChunks`, `src/store/canvasStore.ts` lines 171-199). -/

theorem jsCeilDiv_bounds (a c : Int) (hc : 0 < c) :
    a ≤ jsCeilDiv a c * c ∧ jsCeilDiv a c * c < a + c := by
  unfold jsCeilDiv
  rw [Int.fdiv_eq_ediv _ hc.le]
  have h1 : (-a) / c * c ≤ -a := Int.ediv_mul_le (-a) hc.ne'
  have h2 : -a < ((-a) / c + 1) * c := Int.lt_ediv_add_one_mul_self (-a) hc
  have he : ((-a) / c + 1) * c = (-a) / c * c + c := by ring
  rw [he] at h2
  have hneg : -((-a) / c) * c = -((-a) / c * c) := by ring
  rw [hneg]
  exact ⟨by omega, by omega⟩

theorem jsFloorDiv_mono (a b c : Int) (hc : 0 < c) (hab : a ≤ b) :
    jsFloorDiv a c ≤ jsFloorDiv b c := by
  unfold jsFloorDiv
  rw [Int.fdiv_eq_ediv _ hc.le, Int.fdiv_eq_ediv _ hc.le]
  exact Int.ediv_le_ediv hc hab

/-- The JavaScript loop `for (v = start; v < stop; v += step)` collecting
the loop variable, for a positive step; `fuel` bounds the number of
remaining iterations (the loop advances by at least 1 per iteration). -/
def loopRangeAux (step : Int) : Int → Int → Nat → List Int
  | _, _, 0 => []
  | v, stop, fuel + 1 =>
    if v < stop then v :: loopRangeAux step (v + step) stop fuel else []

def loopRange (start stop step : Int) : List Int :=
  loopRangeAux step start stop (stop - start).toNat

theorem loopRangeAux_mem {x step : Int} (hstep : 0 < step) :
    ∀ (fuel : Nat) (v stop : Int), (stop - v).toNat ≤ fuel →
      (x ∈ loopRangeAux step v stop fuel ↔
        ∃ i : Nat, x = v + step * (i : Int) ∧ x < stop) := by
  intro fuel
  induction fuel with
  | zero =>
    intro v stop hf
    simp only [loopRangeAux, List.not_mem_nil, false_iff]
    rintro ⟨i, rfl, hlt⟩
    have h0 : 0 ≤ step * (i : Int) :=
      mul_nonneg hstep.le (by exact_mod_cast Nat.zero_le i)
    omega
  | succ fuel ih =>
    intro v stop hf
    by_cases hv : v < stop
    · simp only [loopRangeAux, if_pos hv, List.mem_cons]
      rw [ih (v + step) stop (by omega)]
      constructor
      · rintro (rfl | ⟨i, rfl, hlt⟩)
        · exact ⟨0, by push_cast; ring, hv⟩
        · refine ⟨i + 1, by push_cast; ring, hlt⟩
      · rintro ⟨i, rfl, hlt⟩
        cases i with
        | zero => left; push_cast; ring
        | succ j =>
          right
          exact ⟨j, by push_cast; ring, hlt⟩
    · simp only [loopRangeAux, if_neg hv, List.not_mem_nil, false_iff]
      rintro ⟨i, rfl, hlt⟩
      exact hv (by
        have h0 : 0 ≤ step * (i : Int) :=
          mul_nonneg hstep.le (by exact_mod_cast Nat.zero_le i)
        omega)

theorem loopRange_mem {x start stop step : Int} (hstep : 0 < step) :
    x ∈ loopRange start stop step ↔
      ∃ i : Nat, x = start + step * (i : Int) ∧ x < stop :=
  loopRangeAux_mem hstep _ start stop le_rfl

/-- Visible-area bounds of `getVisibleChunks`
(`src/store/canvasStore.ts` lines 179-182):
`Math.max(0, Math.floor(-offsetX / scale))` etc.; the end bounds clamp
to the grid dimensions. -/
def visibleStartX (s : StoreState) : Int :=
  max 0 ⌊-s.viewport.offsetX / s.viewport.scale⌋

def visibleStartY (s : StoreState) : Int :=
  max 0 ⌊-s.viewport.offsetY / s.viewport.scale⌋

def visibleEndX (s : StoreState) (innerWidth : ℚ) : Int :=
  min s.canvasWidth ⌈(innerWidth - s.viewport.offsetX) / s.viewport.scale⌉

def visibleEndY (s : StoreState) (innerHeight : ℚ) : Int :=
  min s.canvasHeight ⌈(innerHeight - s.viewport.offsetY) / s.viewport.scale⌉

/-- Chunk-boundary alignment of `getVisibleChunks`
(`src/store/canvasStore.ts` lines 185-188). -/
def startChunkX (s : StoreState) : Int :=
  jsFloorDiv (visibleStartX s) s.chunkSize * s.chunkSize

def startChunkY (s : StoreState) : Int :=
  jsFloorDiv (visibleStartY s) s.chunkSize * s.chunkSize

def endChunkX (s : StoreState) (innerWidth : ℚ) : Int :=
  jsCeilDiv (visibleEndX s innerWidth) s.chunkSize * s.chunkSize

def endChunkY (s : StoreState) (innerHeight : ℚ) : Int :=
  jsCeilDiv (visibleEndY s innerHeight) s.chunkSize * s.chunkSize

/-- getVisibleChunks, from `src/store/canvasStore.ts` lines 171-199: the
nested loop `for (y = startChunkY; y < endChunkY; y += chunkSize) for
(x = startChunkX; x < endChunkX; x += chunkSize) push {startX: x,
startY: y}`.  The window dimensions (`window.innerWidth/Height`) are
passed as arguments. -/
def getVisibleChunks (s : StoreState) (innerWidth innerHeight : ℚ) :
    List (Int × Int) :=
  (loopRange (startChunkY s) (endChunkY s innerHeight) s.chunkSize).flatMap
    (fun yv =>
      (loopRange (startChunkX s) (endChunkX s innerWidth) s.chunkSize).map
        (fun xv => (xv, yv)))

/-- Cell `(cx, cy)` lies in the visible rectangle clamped to the grid,
as computed by `getVisibleChunks`. -/
def inVisibleRect (s : StoreState) (innerWidth innerHeight : ℚ)
    (cx cy : Int) : Prop :=
  visibleStartX s ≤ cx ∧ cx < visibleEndX s innerWidth ∧
  visibleStartY s ≤ cy ∧ cy < visibleEndY s innerHeight

/-- Cell `(cx, cy)` lies in the chunk-size square anchored at origin `p`. -/
def chunkContains (chunkSize : Int) (p : Int × Int) (cx cy : Int) : Prop :=
  p.1 ≤ cx ∧ cx < p.1 + chunkSize ∧ p.2 ≤ cy ∧ cy < p.2 + chunkSize

theorem getVisibleChunks_mem (s : StoreState) (iw ih : ℚ)
    (hC : 0 < s.chunkSize) (p : Int × Int) :
    p ∈ getVisibleChunks s iw ih ↔
      ((∃ i : Nat, p.1 = startChunkX s + s.chunkSize * (i : Int)) ∧
        p.1 < endChunkX s iw) ∧
      ((∃ j : Nat, p.2 = startChunkY s + s.chunkSize * (j : Int)) ∧
        p.2 < endChunkY s ih) := by
  unfold getVisibleChunks
  rw [List.mem_flatMap]
  constructor
  · rintro ⟨yv, hy, hx⟩
    rcases List.mem_map.1 hx with ⟨xv, hxv, he⟩
    rcases (loopRange_mem hC).1 hy with ⟨j, hyv, hylt⟩
    rcases (loopRange_mem hC).1 hxv with ⟨i, hxv2, hxlt⟩
    rw [← he]
    exact ⟨⟨⟨i, hxv2⟩, hxlt⟩, ⟨⟨j, hyv⟩, hylt⟩⟩
  · rintro ⟨⟨⟨i, hi⟩, hxlt⟩, ⟨⟨j, hj⟩, hylt⟩⟩
    refine ⟨p.2, (loopRange_mem hC).2 ⟨j, hj, hylt⟩, ?_⟩
    rw [List.mem_map]
    exact ⟨p.1, (loopRange_mem hC).2 ⟨i, hi, hxlt⟩, by simp⟩

/-- The store of the spec scenario: 100×100 grid, chunk size 20, and a
viewport (scale 10, offsets -50) whose visible cells in a 210×210 window
are exactly (5,5)-(25,25). -/
def scenarioStore : StoreState :=
  { initialStore with
    viewport :=
      { scale := 10, offsetX := -50, offsetY := -50
        selectedX := none, selectedY := none } }

/-- C1 (amended).  Completeness holds for every viewport: every cell of
the clamped visible rectangle lies in a returned chunk.  Minimality
holds whenever the clamped visible rectangle is nonempty: every returned
chunk contains a cell of the visible rectangle.  The spec scenario
(100×100 grid, chunk size 20, visible cells (5,5)-(25,25)) yields
exactly the chunk origins (0,0), (20,0), (0,20), (20,20).  (Without the
nonemptiness proviso, minimality fails: see the counterexample.) -/
theorem getVisibleChunks_cover (s : StoreState) (innerWidth innerHeight : ℚ)
    (hC : 0 < s.chunkSize) :
    (∀ cx cy : Int, inVisibleRect s innerWidth innerHeight cx cy →
      ∃ p ∈ getVisibleChunks s innerWidth innerHeight,
        chunkContains s.chunkSize p cx cy) ∧
    (visibleStartX s < visibleEndX s innerWidth →
      visibleStartY s < visibleEndY s innerHeight →
      ∀ p ∈ getVisibleChunks s innerWidth innerHeight,
        ∃ cx cy : Int, inVisibleRect s innerWidth innerHeight cx cy ∧
          chunkContains s.chunkSize p cx cy) ∧
    getVisibleChunks scenarioStore 210 210 =
      [(0, 0), (20, 0), (0, 20), (20, 20)] := by
  refine ⟨?_, ?_, ?_⟩
  · rintro cx cy ⟨hcx1, hcx2, hcy1, hcy2⟩
    have hbx := jsFloorDiv_bounds cx s.chunkSize hC
    have hby := jsFloorDiv_bounds cy s.chunkSize hC
    have hex := jsCeilDiv_bounds (visibleEndX s innerWidth) s.chunkSize hC
    have hey := jsCeilDiv_bounds (visibleEndY s innerHeight) s.chunkSize hC
    have hmx := jsFloorDiv_mono (visibleStartX s) cx s.chunkSize hC hcx1
    have hmy := jsFloorDiv_mono (visibleStartY s) cy s.chunkSize hC hcy1
    refine ⟨(jsFloorDiv cx s.chunkSize * s.chunkSize,
             jsFloorDiv cy s.chunkSize * s.chunkSize), ?_, ?_⟩
    · rw [getVisibleChunks_mem s _ _ hC]
      refine ⟨⟨⟨(jsFloorDiv cx s.chunkSize -
          jsFloorDiv (visibleStartX s) s.chunkSize).toNat, ?_⟩, ?_⟩,
        ⟨⟨(jsFloorDiv cy s.chunkSize -
          jsFloorDiv (visibleStartY s) s.chunkSize).toNat, ?_⟩, ?_⟩⟩
      · show jsFloorDiv cx s.chunkSize * s.chunkSize = startChunkX s + _
        unfold startChunkX
        have hcast : (((jsFloorDiv cx s.chunkSize -
            jsFloorDiv (visibleStartX s) s.chunkSize).toNat : Nat) : Int) =
            jsFloorDiv cx s.chunkSize -
              jsFloorDiv (visibleStartX s) s.chunkSize := by omega
        rw [hcast]
        ring
      · show jsFloorDiv cx s.chunkSize * s.chunkSize < endChunkX s innerWidth
        unfold endChunkX
        omega
      · show jsFloorDiv cy s.chunkSize * s.chunkSize = startChunkY s + _
        unfold startChunkY
        have hcast : (((jsFloorDiv cy s.chunkSize -
            jsFloorDiv (visibleStartY s) s.chunkSize).toNat : Nat) : Int) =
            jsFloorDiv cy s.chunkSize -
              jsFloorDiv (visibleStartY s) s.chunkSize := by omega
        rw [hcast]
        ring
      · show jsFloorDiv cy s.chunkSize * s.chunkSize < endChunkY s innerHeight
        unfold endChunkY
        omega
    · exact ⟨hbx.1, hbx.2, hby.1, hby.2⟩
  · intro hnex hney p hp
    rw [getVisibleChunks_mem s _ _ hC] at hp
    rcases hp with ⟨⟨⟨i, hpx⟩, hxlt⟩, ⟨⟨j, hpy⟩, hylt⟩⟩
    have hsx := jsFloorDiv_bounds (visibleStartX s) s.chunkSize hC
    have hsy := jsFloorDiv_bounds (visibleStartY s) s.chunkSize hC
    have hex := jsCeilDiv_bounds (visibleEndX s innerWidth) s.chunkSize hC
    have hey := jsCeilDiv_bounds (visibleEndY s innerHeight) s.chunkSize hC
    have hinn : 0 ≤ s.chunkSize * (i : Int) :=
      mul_nonneg hC.le (by exact_mod_cast Nat.zero_le i)
    have hjnn : 0 ≤ s.chunkSize * (j : Int) :=
      mul_nonneg hC.le (by exact_mod_cast Nat.zero_le j)
    -- a returned origin is at least one full chunk below the aligned end
    have hstepx : p.1 ≤ endChunkX s innerWidth - s.chunkSize := by
      have hm : endChunkX s innerWidth - p.1 = s.chunkSize *
          (jsCeilDiv (visibleEndX s innerWidth) s.chunkSize -
            jsFloorDiv (visibleStartX s) s.chunkSize - (i : Int)) := by
        rw [hpx]
        unfold endChunkX startChunkX
        ring
      set m := jsCeilDiv (visibleEndX s innerWidth) s.chunkSize -
        jsFloorDiv (visibleStartX s) s.chunkSize - (i : Int) with hmdef
      have hmpos : 0 < m := by
        by_contra hcon
        push_neg at hcon
        have : s.chunkSize * m ≤ 0 := mul_nonpos_of_nonneg_of_nonpos hC.le hcon
        omega
      have : s.chunkSize * 1 ≤ s.chunkSize * m :=
        mul_le_mul_of_nonneg_left (by omega) hC.le
      rw [mul_one] at this
      omega
    have hstepy : p.2 ≤ endChunkY s innerHeight - s.chunkSize := by
      have hm : endChunkY s innerHeight - p.2 = s.chunkSize *
          (jsCeilDiv (visibleEndY s innerHeight) s.chunkSize -
            jsFloorDiv (visibleStartY s) s.chunkSize - (j : Int)) := by
        rw [hpy]
        unfold endChunkY startChunkY
        ring
      set m := jsCeilDiv (visibleEndY s innerHeight) s.chunkSize -
        jsFloorDiv (visibleStartY s) s.chunkSize - (j : Int) with hmdef
      have hmpos : 0 < m := by
        by_contra hcon
        push_neg at hcon
        have : s.chunkSize * m ≤ 0 := mul_nonpos_of_nonneg_of_nonpos hC.le hcon
        omega
      have : s.chunkSize * 1 ≤ s.chunkSize * m :=
        mul_le_mul_of_nonneg_left (by omega) hC.le
      rw [mul_one] at this
      omega
    have hpx_lt : p.1 < visibleEndX s innerWidth := by
      unfold endChunkX at hstepx
      omega
    have hpy_lt : p.2 < visibleEndY s innerHeight := by
      unfold endChunkY at hstepy
      omega
    have hsx_lt : visibleStartX s < p.1 + s.chunkSize := by
      have h1 : startChunkX s ≤ p.1 := by rw [hpx]; omega
      unfold startChunkX at h1
      omega
    have hsy_lt : visibleStartY s < p.2 + s.chunkSize := by
      have h1 : startChunkY s ≤ p.2 := by rw [hpy]; omega
      unfold startChunkY at h1
      omega
    refine ⟨max (visibleStartX s) p.1, max (visibleStartY s) p.2,
      ⟨le_max_left _ _, max_lt hnex hpx_lt,
       le_max_left _ _, max_lt hney hpy_lt⟩,
      le_max_right _ _, max_lt hsx_lt (by omega),
      le_max_right _ _, max_lt hsy_lt (by omega)⟩
  · have hsx : visibleStartX scenarioStore = 5 := by
      unfold visibleStartX scenarioStore initialStore
      rw [show ⌊-(-50 : ℚ) / 10⌋ = 5 by rw [Int.floor_eq_iff] <;> norm_num]
      decide
    have hsy : visibleStartY scenarioStore = 5 := by
      unfold visibleStartY scenarioStore initialStore
      rw [show ⌊-(-50 : ℚ) / 10⌋ = 5 by rw [Int.floor_eq_iff] <;> norm_num]
      decide
    have hexv : visibleEndX scenarioStore 210 = 26 := by
      unfold visibleEndX scenarioStore initialStore
      rw [show ⌈((210 : ℚ) - -50) / 10⌉ = 26 by rw [Int.ceil_eq_iff] <;> norm_num]
      decide
    have heyv : visibleEndY scenarioStore 210 = 26 := by
      unfold visibleEndY scenarioStore initialStore
      rw [show ⌈((210 : ℚ) - -50) / 10⌉ = 26 by rw [Int.ceil_eq_iff] <;> norm_num]
      decide
    unfold getVisibleChunks startChunkX startChunkY endChunkX endChunkY
    rw [hsx, hsy, hexv, heyv]
    decide

/-- A grid smaller than one chunk (5×5, chunk size 20) with the viewport
panned just past its right edge: the clamped visible rectangle is empty
(`visibleStartX = visibleEndX = 5`), yet the covering loop still emits
the chunk at (0,0). -/
def degenerateStore : StoreState :=
  { canvasWidth := 5, canvasHeight := 5, chunkSize := 20, chunks := [],
    loadingChunks := [],
    viewport :=
      { scale := 1, offsetX := -5, offsetY := 0
        selectedX := none, selectedY := none } }

/-- C1 counterexample.  For the degenerate viewport above,
`getVisibleChunks` returns the chunk origin (0,0) although no cell at
all lies in the clamped visible rectangle — so the returned chunk is
wholly outside the visible rectangle, refuting minimality as universally
stated. -/
theorem getVisibleChunks_minimality_fails :
    (0, 0) ∈ getVisibleChunks degenerateStore 800 600 ∧
    ∀ cx cy : Int, ¬ inVisibleRect degenerateStore 800 600 cx cy := by
  have hsx : visibleStartX degenerateStore = 5 := by
    unfold visibleStartX degenerateStore
    rw [show ⌊-(-5 : ℚ) / 1⌋ = 5 by rw [Int.floor_eq_iff] <;> norm_num]
    decide
  have hex : visibleEndX degenerateStore 800 = 5 := by
    unfold visibleEndX degenerateStore
    rw [show ⌈((800 : ℚ) - -5) / 1⌉ = 805 by rw [Int.ceil_eq_iff] <;> norm_num]
    decide
  constructor
  · have hsy : visibleStartY degenerateStore = 0 := by
      unfold visibleStartY degenerateStore
      rw [show ⌊-(0 : ℚ) / 1⌋ = 0 by rw [Int.floor_eq_iff] <;> norm_num]
      decide
    have hey : visibleEndY degenerateStore 600 = 5 := by
      unfold visibleEndY degenerateStore
      rw [show ⌈((600 : ℚ) - 0) / 1⌉ = 600 by rw [Int.ceil_eq_iff] <;> norm_num]
      decide
    unfold getVisibleChunks startChunkX startChunkY endChunkX endChunkY
    rw [hsx, hsy, hex, hey]
    decide
  · intro cx cy h
    unfold inVisibleRect at h
    rcases h with ⟨h1, h2, -, -⟩
    rw [hsx] at h1
    rw [hex] at h2
    omega

/-- Witness for C1: the covering theorem applied to the scenario store. -/
theorem getVisibleChunks_cover_witness :
    0 < scenarioStore.chunkSize ∧
    ((∀ cx cy : Int, inVisibleRect scenarioStore 210 210 cx cy →
      ∃ p ∈ getVisibleChunks scenarioStore 210 210,
        chunkContains scenarioStore.chunkSize p cx cy) ∧
    (visibleStartX scenarioStore < visibleEndX scenarioStore 210 →
      visibleStartY scenarioStore < visibleEndY scenarioStore 210 →
      ∀ p ∈ getVisibleChunks scenarioStore 210 210,
        ∃ cx cy : Int, inVisibleRect scenarioStore 210 210 cx cy ∧
          chunkContains scenarioStore.chunkSize p cx cy) ∧
    getVisibleChunks scenarioStore 210 210 =
      [(0, 0), (20, 0), (0, 20), (20, 20)]) :=
  ⟨by decide, getVisibleChunks_cover scenarioStore 210 210 (by decide)⟩

/-! Claim C2: initialization retry and mock fallback
(`src/components/providers/CanvasServiceProvider.tsx` lines 77-219)
together with the error-absorbing dimension read
(`src/api/canvasService.ts` lines 26-72). -/

/-- safeContractCall, from `src/api/canvasService.ts` lines 26-39: run
the contract call; on any failure, log a warning and return the
supplied default value.  The outcome of the underlying contract call is
passed in as `call`. -/
def safeContractCall {α : Type} (call : Except String α) (defaultValue : α) :
    α :=
  match call with
  | .ok v => v
  | .error _ => defaultValue

/-- getDimensions, from `src/api/canvasService.ts` lines 52-72: read
WIDTH and HEIGHT through `safeContractCall` with fallbacks
`DEFAULT_WIDTH = DEFAULT_HEIGHT = 100`.  The promise always resolves:
the outer catch is unreachable because `safeContractCall` never
throws. -/
def getDimensions (widthCall heightCall : Except String Int) :
    Except String (Int × Int) :=
  .ok (safeContractCall widthCall 100, safeContractCall heightCall 100)

/-- maxRetries, from `CanvasServiceProvider.tsx` line 35. -/
def maxRetries : Nat := 3

/-- initializeCanvasService, from `CanvasServiceProvider.tsx` lines
81-211, abstracted over which attempts fail: `fails n` says whether the
attempt with `retryCount = n` throws out of its setup body.  The entry
guard `retryCount >= maxRetries` installs the mock service and sets
`isUsingFallback` (result `true`); a failing attempt schedules a rerun
with `retryCount + 1`; a successful attempt installs the live service
(result `false`).  `fuel = maxRetries - retryCount`, so the entry guard
is exactly `fuel = 0`. -/
def initAttempts (fails : Nat → Bool) : Nat → Nat → Bool
  | _, 0 => true
  | retryCount, fuel + 1 =>
    if fails retryCount then initAttempts fails (retryCount + 1) fuel
    else false

/-- The `isUsingFallback` flag reported after initialization starting
from `retryCount = 0`. -/
def initRun (fails : Nat → Bool) : Bool :=
  initAttempts fails 0 maxRetries

/-- C2 (amended).  The initialization controller installs the mock
source and reports degraded mode exactly when three consecutive
initialization attempts fail — not before and not after.  But a failing
dimension contract call never makes an attempt fail: `safeContractCall`
absorbs the failure, `getDimensions` always resolves, and with both
WIDTH and HEIGHT failing it resolves with the default 100×100
dimensions. -/
theorem degradation_threshold :
    (∀ fails : Nat → Bool,
      initRun fails = true ↔
        fails 0 = true ∧ fails 1 = true ∧ fails 2 = true) ∧
    (∀ widthCall heightCall : Except String Int,
      ∃ d, getDimensions widthCall heightCall = .ok d) ∧
    getDimensions (.error "timeout") (.error "timeout") = .ok (100, 100) := by
  refine ⟨?_, fun w h => ⟨_, rfl⟩, rfl⟩
  intro fails
  cases h0 : fails 0 <;> cases h1 : fails 1 <;> cases h2 : fails 2 <;>
    simp [initRun, initAttempts, maxRetries, h0, h1, h2]

/-- C2 counterexample.  When the dimension contract calls fail on every
attempt (e.g. they time out), no initialization attempt throws —
`getDimensions` resolves with the fallback dimensions — so the
controller installs the live service with `isUsingFallback = false`
already on the first attempt.  The synthetic source is never installed
and degraded mode is never reported, contradicting the claim. -/
theorem degradation_dimension_failure_ignored :
    getDimensions (.error "timeout") (.error "timeout") = .ok (100, 100) ∧
    initRun (fun _ =>
      !(getDimensions (.error "timeout") (.error "timeout")).isOk) = false :=
  ⟨rfl, rfl⟩

/-! Claim C3: event-subscription reconnection with exponential backoff
(`EthersCanvasService.onPixelPainted`, `src/api/canvasService.ts`
lines 249-346). -/

/-- MAX_RECONNECT_ATTEMPTS, from `src/api/canvasService.ts` line 267. -/
def maxReconnectAttempts : Nat := 5

/-- RECONNECT_DELAY (the base delay in ms), from
`src/api/canvasService.ts` line 268. -/
def reconnectDelay : Nat := 2000

/-- Observable outcome of the reconnection loop: the delays of the
reconnect timers scheduled (in order), whether the subscription ended
reconnected, the final value of `reconnectAttempts`, and the messages
delivered to the owner of the subscription.  The only channel
`onPixelPainted` exposes to its owner is the pixel-event callback; when
the loop gives up it only writes `console.error("Max reconnect attempts
reached, giving up")`, so no owner report is ever emitted. -/
structure ReconnectRun where
  delays : List Nat
  connected : Bool
  finalAttempts : Nat
  ownerReports : List String
deriving DecidableEq

/-- attemptReconnect, from `src/api/canvasService.ts` lines 278-304,
abstracted over which reconnect attempts succeed: `succ n` is whether
the n-th attempt (1-based, `reconnectAttempts` after its increment)
manages to re-attach the listener inside its timer.  Each iteration
increments the counter, schedules one timer with delay
`RECONNECT_DELAY * 2^(reconnectAttempts - 1)` and either reconnects
(resetting the counter to 0) or recurses; once
`reconnectAttempts < MAX_RECONNECT_ATTEMPTS` fails it gives up without
scheduling a timer and without reporting to its owner.
`fuel = maxReconnectAttempts - reconnectAttempts`, so the guard is
exactly `fuel = 0`. -/
def attemptReconnect (succ : Nat → Bool) : Nat → Nat → ReconnectRun
  | a, 0 => ⟨[], false, a, []⟩
  | a, fuel + 1 =>
    let d := reconnectDelay * 2 ^ (a + 1 - 1)
    match succ (a + 1) with
    | true => ⟨[d], true, 0, []⟩
    | false =>
      let rest := attemptReconnect succ (a + 1) fuel
      ⟨d :: rest.delays, rest.connected, rest.finalAttempts,
        rest.ownerReports⟩

/-- The reconnection loop as started by `handleConnectionError`
(`reconnectAttempts = 0`). -/
def runReconnect (succ : Nat → Bool) : ReconnectRun :=
  attemptReconnect succ 0 maxReconnectAttempts

theorem attemptReconnect_true (succ : Nat → Bool) (a fuel : Nat)
    (hs : succ (a + 1) = true) :
    attemptReconnect succ a (fuel + 1) =
      ⟨[reconnectDelay * 2 ^ a], true, 0, []⟩ := by
  simp [attemptReconnect, hs]

theorem attemptReconnect_false (succ : Nat → Bool) (a fuel : Nat)
    (hs : succ (a + 1) = false) :
    attemptReconnect succ a (fuel + 1) =
      ⟨reconnectDelay * 2 ^ a :: (attemptReconnect succ (a + 1) fuel).delays,
       (attemptReconnect succ (a + 1) fuel).connected,
       (attemptReconnect succ (a + 1) fuel).finalAttempts,
       (attemptReconnect succ (a + 1) fuel).ownerReports⟩ := by
  simp [attemptReconnect, hs]

theorem attemptReconnect_spec (succ : Nat → Bool) :
    ∀ (fuel a : Nat),
      (attemptReconnect succ a fuel).ownerReports = [] ∧
      (attemptReconnect succ a fuel).delays.length ≤ fuel ∧
      ((attemptReconnect succ a fuel).connected = true →
        (attemptReconnect succ a fuel).finalAttempts = 0) ∧
      (∀ i d, (attemptReconnect succ a fuel).delays[i]? = some d →
        d = reconnectDelay * 2 ^ (a + i)) := by
  intro fuel
  induction fuel with
  | zero =>
    intro a
    refine ⟨rfl, by simp [attemptReconnect], by simp [attemptReconnect], ?_⟩
    intro i d hd
    simp [attemptReconnect] at hd
  | succ fuel ih =>
    intro a
    cases hs : succ (a + 1) with
    | true =>
      rw [attemptReconnect_true succ a fuel hs]
      refine ⟨rfl, by simp, fun _ => rfl, ?_⟩
      intro i d hd
      cases i with
      | zero =>
        simp only [List.getElem?_cons_zero, Option.some.injEq] at hd
        rw [← hd, Nat.add_zero]
      | succ j => simp at hd
    | false =>
      rcases ih (a + 1) with ⟨hrep, hlen, hconn, hdel⟩
      rw [attemptReconnect_false succ a fuel hs]
      refine ⟨hrep, by simpa using hlen, hconn, ?_⟩
      intro i d hd
      cases i with
      | zero =>
        simp only [List.getElem?_cons_zero, Option.some.injEq] at hd
        rw [← hd, Nat.add_zero]
      | succ j =>
        simp only [List.getElem?_cons_succ] at hd
        rw [hdel j d hd, show a + 1 + j = a + (j + 1) by omega]

/-- C3 (amended).  The delay before reconnect attempt n (1-based, read
off at index n-1 of the scheduled-timer list) is exactly
`RECONNECT_DELAY * 2^(n-1)`; at most `MAX_RECONNECT_ATTEMPTS = 5`
timers are ever scheduled; a run that ends connected has its attempt
counter reset to 0; and when every attempt fails the manager schedules
exactly the delays 2000, 4000, 8000, 16000, 32000 ms, ends
disconnected (abandoned), and delivers no report to its owner — the
permanent failure is only logged, not reported to the Degradation
Controller. -/
theorem reconnect_backoff (succ : Nat → Bool) :
    (∀ i d, (runReconnect succ).delays[i]? = some d →
      d = reconnectDelay * 2 ^ i) ∧
    (runReconnect succ).delays.length ≤ maxReconnectAttempts ∧
    ((runReconnect succ).connected = true →
      (runReconnect succ).finalAttempts = 0) ∧
    ((∀ n, succ n = false) →
      (runReconnect succ).delays = [2000, 4000, 8000, 16000, 32000] ∧
      (runReconnect succ).connected = false ∧
      (runReconnect succ).ownerReports = []) := by
  rcases attemptReconnect_spec succ maxReconnectAttempts 0 with
    ⟨hrep, hlen, hconn, hdel⟩
  refine ⟨?_, hlen, hconn, ?_⟩
  · intro i d hd
    have h := hdel i d hd
    simpa using h
  · intro hfail
    have hrun : runReconnect succ =
        ⟨[2000, 4000, 8000, 16000, 32000], false, 5, []⟩ := by
      unfold runReconnect maxReconnectAttempts
      rw [attemptReconnect_false succ 0 4 (hfail 1),
        attemptReconnect_false succ 1 3 (hfail 2),
        attemptReconnect_false succ 2 2 (hfail 3),
        attemptReconnect_false succ 3 1 (hfail 4),
        attemptReconnect_false succ 4 0 (hfail 5)]
      simp [attemptReconnect, reconnectDelay]
    rw [hrun]
    exact ⟨rfl, rfl, rfl⟩

/-- C3 counterexample.  With every reconnect attempt failing, the run
reaches the abandoned state (all five timers scheduled, not connected)
and the list of messages delivered to the owner is empty: the permanent
failure is not reported to the Degradation Controller, contradicting
the reporting part of the claim. -/
theorem reconnect_abandoned_without_report :
    (runReconnect (fun _ => false)).delays =
      [2000, 4000, 8000, 16000, 32000] ∧
    (runReconnect (fun _ => false)).connected = false ∧
    (runReconnect (fun _ => false)).ownerReports = [] := by
  decide

/-! Claim C4: known-bad selector short-circuit in `ThrottledProvider.send`
(`src/lib/web3utils.ts` lines 48-82). -/

/-- JSON-RPC values exchanged with the provider. -/
inductive RpcValue where
  | num (n : Int)
  | str (s : String)
  | arr (l : List RpcValue)
  | null

/-- knownIssues, from `src/lib/web3utils.ts` lines 17-41: the function
selectors the remote is known to mishandle, each with its precomputed
mock response (the `logMessage` strings are omitted as pure logging). -/
def knownIssues : List (List Char × RpcValue) :=
  [("0xd44d3394".toList, .arr [.num 0, .num 0]),
   ("0x69ea80d5".toList, .arr [.num 0, .num 0]),
   ("0xbb3c358c".toList, .arr [.num 0, .num 0]),
   ("0xe59252c9".toList, .str "0xFFFFFF"),
   ("0xc58f4da7".toList, .arr [.arr []])]

/-- JavaScript `s.startsWith(p)` on strings as character lists
(first argument is the pattern). -/
def startsWithList : List Char → List Char → Bool
  | [], _ => true
  | _ :: _, [] => false
  | p :: ps, c :: cs => p == c && startsWithList ps cs

/-- The ENS-related selectors skipped by `ThrottledProvider.send`
(`src/lib/web3utils.ts` lines 77-79). -/
def ensSelectors : List (List Char) :=
  ["0x01ffc9a7".toList, "0x9061b923".toList, "0x3b3b57de".toList]

/-- How `ThrottledProvider.send` routes a request. -/
inductive SendRoute where
  | shortCircuit (v : RpcValue)
  | ensNull
  | enqueue

/-- The second guard of `ThrottledProvider.send` (lines 72-82): ENS
resolution calls resolve with null; everything else is queued. -/
def sendRouteEns (method : String) (callData : List Char) : SendRoute :=
  if method = "eth_call" ∧
      (ensSelectors.any fun sel => startsWithList sel callData) then
    .ensNull
  else .enqueue

/-- The routing decision of `ThrottledProvider.send`
(`src/lib/web3utils.ts` lines 48-87): for an eth_call with a (truthy)
data field whose first ten characters match a known-bad selector, the
precomputed mock response is returned immediately
(`return Promise.resolve(config.mockResponse)`); otherwise the ENS
guard runs, and only requests that pass both guards are pushed on the
request queue — `super.send`, the underlying network transport, is
invoked exclusively for queued requests.  `callData` is
`params[0].data` (`[]` when absent or empty; both are falsy in the
source). -/
def sendRoute (method : String) (callData : List Char) : SendRoute :=
  if method = "eth_call" ∧ callData ≠ [] then
    match knownIssues.lookup (callData.take 10) with
    | some cfg => .shortCircuit cfg
    | none => sendRouteEns method callData
  else sendRouteEns method callData

/-- C4.  Every eth_call whose call data begins with one of the
known-bad selectors is resolved immediately with the precomputed
fallback value configured for that selector, and is never enqueued —
hence never forwarded to the underlying network transport. -/
theorem knownIssue_shortCircuit (d sel : List Char) (v : RpcValue)
    (hmem : (sel, v) ∈ knownIssues) (hpre : ∃ rest, d = sel ++ rest) :
    sendRoute "eth_call" d = .shortCircuit v ∧
    sendRoute "eth_call" d ≠ .enqueue := by
  obtain ⟨rest, rfl⟩ := hpre
  have hlen : sel.length = 10 := by fin_cases hmem <;> decide
  have hlookup : knownIssues.lookup sel = some v := by
    fin_cases hmem <;> rfl
  have hne : sel ++ rest ≠ [] := by
    intro hcon
    have hl := congrArg List.length hcon
    rw [List.length_append, hlen] at hl
    simp at hl
  have htake : (sel ++ rest).take 10 = sel := by
    rw [← hlen]
    exact List.take_left sel rest
  have hroute : sendRoute "eth_call" (sel ++ rest) = .shortCircuit v := by
    unfold sendRoute
    rw [if_pos ⟨rfl, hne⟩, htake, hlookup]
  exact ⟨hroute, by rw [hroute]; intro hcon; cases hcon⟩

/-- Witness for C4: a concrete call whose data begins with the HEIGHT
selector 0xd44d3394 is short-circuited to the mock response [0, 0]. -/
theorem knownIssue_shortCircuit_witness :
    (("0xd44d3394".toList, RpcValue.arr [.num 0, .num 0]) ∈ knownIssues ∧
      ∃ rest, "0xd44d3394ff".toList = "0xd44d3394".toList ++ rest) ∧
    (sendRoute "eth_call" "0xd44d3394ff".toList =
      .shortCircuit (RpcValue.arr [.num 0, .num 0]) ∧
     sendRoute "eth_call" "0xd44d3394ff".toList ≠ .enqueue) :=
  ⟨⟨by unfold knownIssues; exact List.mem_cons_self _ _,
    ⟨"ff".toList, by decide⟩⟩,
   knownIssue_shortCircuit "0xd44d3394ff".toList "0xd44d3394".toList
     (RpcValue.arr [.num 0, .num 0])
     (by unfold knownIssues; exact List.mem_cons_self _ _)
     ⟨"ff".toList, by decide⟩⟩

/-! Claim C5: batch-size/overload error handling in the queued request
processing of `ThrottledProvider.send`
(`src/lib/web3utils.ts` lines 85-190). -/

/-- JavaScript `s.includes(p)` on strings as character lists (first
argument is the pattern searched for). -/
def containsSub (pat : List Char) : List Char → Bool
  | [] => startsWithList pat []
  | c :: cs => startsWithList pat (c :: cs) || containsSub pat cs

/-- The overload signature matched at `src/lib/web3utils.ts` line 124. -/
def batchSizeErrorMsg : List Char := "Batch size is too large".toList

/-- The timeout signature matched at `src/lib/web3utils.ts` line 141. -/
def timedOutMsg : List Char := "timed out".toList

/-- The mutable throttling state of `ThrottledProvider`. -/
structure SchedState where
  maxBatchSize : Nat
  requestDelay : Nat
deriving DecidableEq

/-- Initial throttling state, from `src/lib/web3utils.ts` lines 12-13:
`maxBatchSize = 1` ("start with no batching to be safe"),
`requestDelay = 50` ms. -/
def initialSchedState : SchedState := ⟨1, 50⟩

/-- Outcome of one `super.send` network call (resolved or rejected). -/
inductive CallOutcome where
  | ok (v : RpcValue)
  | err (msg : List Char)

/-- How the queued request's promise is settled for its caller. -/
inductive Settled where
  | resolved (v : RpcValue)
  | rejected (msg : List Char)

/-- Result of processing one queued request: the throttling state
afterwards, the settlement delivered to the caller, the number of
`super.send` network calls consumed, and the extra cooldown waits
inserted. -/
structure HandledRequest where
  state : SchedState
  settled : Settled
  sendAttempts : Nat
  cooldowns : List Nat

/-- Processing of one queued request, from `src/lib/web3utils.ts` lines
86-165.  `first` is the outcome of the initial `super.send` raced
against the 20 s timeout; `retry` is the outcome of the single bare
`super.send` retry, consulted only on a batch-size error.  On a
batch-size error the state is set to `maxBatchSize = 1` and
`requestDelay + 50`, a 500 ms cooldown precedes the one retry, and the
retry's failure is rejected to the caller.  On a timeout, eth_call
resolves with "0x" and eth_chainId with "0x1"; any other error is
rejected as-is. -/
def handleQueuedRequest (s : SchedState) (method : String)
    (first retry : CallOutcome) : HandledRequest :=
  match first with
  | .ok v => ⟨s, .resolved v, 1, []⟩
  | .err msg =>
    if containsSub batchSizeErrorMsg msg then
      let s2 : SchedState := ⟨1, s.requestDelay + 50⟩
      match retry with
      | .ok v => ⟨s2, .resolved v, 2, [500]⟩
      | .err msg2 => ⟨s2, .rejected msg2, 2, [500]⟩
    else if containsSub timedOutMsg msg then
      if method = "eth_call" then ⟨s, .resolved (.str "0x"), 1, []⟩
      else if method = "eth_chainId" then ⟨s, .resolved (.str "0x1"), 1, []⟩
      else ⟨s, .rejected msg, 1, []⟩
    else ⟨s, .rejected msg, 1, []⟩

/-- A session: the throttling state after processing a sequence of
queued requests. -/
def runSession (s : SchedState)
    (reqs : List (String × CallOutcome × CallOutcome)) : SchedState :=
  reqs.foldl (fun st r => (handleQueuedRequest st r.1 r.2.1 r.2.2).state) s

theorem handleQueuedRequest_maxBatch (s : SchedState) (method : String)
    (first retry : CallOutcome) :
    (handleQueuedRequest s method first retry).state.maxBatchSize = 1 ∨
    (handleQueuedRequest s method first retry).state.maxBatchSize =
      s.maxBatchSize := by
  cases first with
  | ok v => right; rfl
  | err msg =>
    unfold handleQueuedRequest
    by_cases hb : containsSub batchSizeErrorMsg msg = true
    · cases retry <;> simp [hb]
    · simp only [Bool.not_eq_true] at hb
      by_cases ht : containsSub timedOutMsg msg = true
      · by_cases hm : method = "eth_call"
        · simp [hb, ht, hm]
        · by_cases hm2 : method = "eth_chainId" <;> simp [hb, ht, hm, hm2]
      · simp only [Bool.not_eq_true] at ht
        simp [hb, ht]

theorem runSession_maxBatch_one (reqs : List (String × CallOutcome × CallOutcome)) :
    ∀ s : SchedState, s.maxBatchSize = 1 →
      (runSession s reqs).maxBatchSize = 1 := by
  induction reqs with
  | nil => intro s hs; exact hs
  | cons r reqs ih =>
    intro s hs
    show (runSession (handleQueuedRequest s r.1 r.2.1 r.2.2).state reqs).maxBatchSize = 1
    apply ih
    rcases handleQueuedRequest_maxBatch s r.1 r.2.1 r.2.2 with h | h
    · exact h
    · rw [h, hs]

/-- C5.  On a batch-size/overload error the scheduler sets
`maxBatchSize` to 1, increases the inter-call delay, inserts one 500 ms
cooldown and consumes exactly one retry network call; if that single
retry also fails, its error is rejected to the caller; and starting
from a state with `maxBatchSize = 1` — in particular from the initial
state, which already has `maxBatchSize = 1` — no later request
processing ever increases it, for the remainder of the session. -/
theorem batch_error_handling (s : SchedState) (method : String)
    (msg : List Char) (retry : CallOutcome)
    (hb : containsSub batchSizeErrorMsg msg = true) :
    ((handleQueuedRequest s method (.err msg) retry).state.maxBatchSize = 1 ∧
     (handleQueuedRequest s method (.err msg) retry).state.requestDelay =
       s.requestDelay + 50 ∧
     (handleQueuedRequest s method (.err msg) retry).sendAttempts = 2 ∧
     (handleQueuedRequest s method (.err msg) retry).cooldowns = [500]) ∧
    (∀ msg2, retry = .err msg2 →
      (handleQueuedRequest s method (.err msg) retry).settled =
        .rejected msg2) ∧
    initialSchedState.maxBatchSize = 1 ∧
    (∀ reqs s0, s0.maxBatchSize = 1 →
      (runSession s0 reqs).maxBatchSize = 1) := by
  refine ⟨?_, ?_, rfl, fun reqs s0 hs0 => runSession_maxBatch_one reqs s0 hs0⟩
  · cases retry <;> simp [handleQueuedRequest, hb]
  · rintro msg2 rfl
    simp [handleQueuedRequest, hb]

/-- Witness for C5: the batch-size theorem at the initial state with
the overload message itself and a failing retry. -/
theorem batch_error_handling_witness :
    containsSub batchSizeErrorMsg batchSizeErrorMsg = true ∧
    (((handleQueuedRequest initialSchedState "eth_call"
        (.err batchSizeErrorMsg) (.err "boom".toList)).state.maxBatchSize = 1 ∧
      (handleQueuedRequest initialSchedState "eth_call"
        (.err batchSizeErrorMsg) (.err "boom".toList)).state.requestDelay =
        initialSchedState.requestDelay + 50 ∧
      (handleQueuedRequest initialSchedState "eth_call"
        (.err batchSizeErrorMsg) (.err "boom".toList)).sendAttempts = 2 ∧
      (handleQueuedRequest initialSchedState "eth_call"
        (.err batchSizeErrorMsg) (.err "boom".toList)).cooldowns = [500]) ∧
     (∀ msg2, (CallOutcome.err "boom".toList) = .err msg2 →
       (handleQueuedRequest initialSchedState "eth_call"
         (.err batchSizeErrorMsg) (.err "boom".toList)).settled =
         .rejected msg2) ∧
     initialSchedState.maxBatchSize = 1 ∧
     (∀ reqs s0, s0.maxBatchSize = 1 →
       (runSession s0 reqs).maxBatchSize = 1)) :=
  ⟨by decide,
   batch_error_handling initialSchedState "eth_call" batchSizeErrorMsg
     (.err "boom".toList) (by decide)⟩

/-! Claim C6: write-path confirmation timeout in `paintPixel`
(`src/lib/web3utils.ts` lines 342-436). -/

/-- TransactionResult, from `src/types/index.ts`. -/
structure TransactionResult where
  success : Bool
  transactionHash : Option String
  error : Option String
deriving DecidableEq

/-- Outcome of `contract.paintPixel(x, y, color, {value: fee})`: either
the transaction was submitted (with its hash) or the call threw, with
an optional ethers error code and a message. -/
inductive SubmitOutcome where
  | notSent (code : Option String) (msg : String)
  | sent (hash : String)

/-- Outcome of waiting for the confirmation (`tx.wait(1)` raced against
the 20 s timeout): confirmed in some block, or the race rejected —
in particular with the timeout message below. -/
inductive WaitOutcome where
  | confirmed (blockNumber : Nat)
  | waitFailed (msg : String)

/-- The rejection message of the confirmation timeout race
(`src/lib/web3utils.ts` line 386). -/
def confirmationTimeoutMsg : String := "Transaction confirmation timeout"

/-- The advisory message attached to the success result when
confirmation timed out (`src/lib/web3utils.ts` line 413). -/
def confirmationAdvisory : String :=
  "Transaction sent but confirmation timed out. Check the transaction in block explorer."

/-- Result of one `paintPixel` call, plus the number of transactions
actually submitted to the network. -/
structure PaintRun where
  result : TransactionResult
  submissions : Nat

/-- paintPixel, from `src/lib/web3utils.ts` lines 342-436.  `hasRunner`
is whether the contract has a signer attached; `submit` is the outcome
of the single `contract.paintPixel` submission; `wait` the outcome of
the confirmation race.  A wait failure — including the 20 s timeout —
still returns `success: true` with the transaction hash and the
advisory message, and the transaction is never resubmitted (exactly one
submission happens once the call is sent). -/
def paintPixelRun (hasRunner : Bool) (submit : SubmitOutcome)
    (wait : WaitOutcome) : PaintRun :=
  if !hasRunner then
    ⟨⟨false, none, some "Wallet not connected to contract"⟩, 0⟩
  else
    match submit with
    | .notSent code msg =>
      if code = some "INSUFFICIENT_FUNDS" then
        ⟨⟨false, none, some "Not enough ETH to cover the fee and gas"⟩, 0⟩
      else if code = some "ACTION_REJECTED" then
        ⟨⟨false, none, some "Transaction rejected by user"⟩, 0⟩
      else if msg = "" then
        ⟨⟨false, none, some "Unknown error during transaction"⟩, 0⟩
      else ⟨⟨false, none, some msg⟩, 0⟩
    | .sent hash =>
      match wait with
      | .confirmed _ => ⟨⟨true, some hash, none⟩, 1⟩
      | .waitFailed _ => ⟨⟨true, some hash, some confirmationAdvisory⟩, 1⟩

/-- C6.  When the transaction is submitted but waiting for its
confirmation times out: exactly one transaction is submitted (no
automatic resubmission), and the caller receives `success = true` with
the transaction hash and the advisory message — an outcome distinct
from failure. -/
theorem paintPixel_confirmation_timeout (hash : String) :
    (paintPixelRun true (.sent hash)
      (.waitFailed confirmationTimeoutMsg)).submissions = 1 ∧
    (paintPixelRun true (.sent hash)
      (.waitFailed confirmationTimeoutMsg)).result.success = true ∧
    (paintPixelRun true (.sent hash)
      (.waitFailed confirmationTimeoutMsg)).result.transactionHash =
      some hash ∧
    (paintPixelRun true (.sent hash)
      (.waitFailed confirmationTimeoutMsg)).result.error =
      some confirmationAdvisory :=
  ⟨rfl, rfl, rfl, rfl⟩

/-! Claim C7: the present/loading exclusion invariant
(`src/store/canvasStore.ts` lines 54-76,
`src/components/canvas/Canvas.tsx` lines 77-110). -/

/-- Store operations that other tasks (the periodic refresh path of
`setupPeriodicUpdates`, the event path) may run while the chunk-loading
path awaits a fetch. -/
inductive StoreOp where
  | mergeChunk (startX startY : Int) (chunk : CanvasChunk)
  | markLoading (startX startY : Int) (isLoading : Bool)
  | paintEvent (x y : Int) (color : String) (now : Int)
deriving DecidableEq

def applyOp (s : StoreState) : StoreOp → StoreState
  | .mergeChunk sx sy c => setChunk s sx sy c
  | .markLoading sx sy b => setChunkLoading s sx sy b
  | .paintEvent x y color now => updatePixel s x y color now

/-- The guard of the chunk-loading path (`Canvas.tsx` line 86):
`!chunks[chunkKey] && !loadingChunks[chunkKey]`, evaluated against the
render-time snapshot captured by the `loadVisibleChunks` closure — not
against the live store. -/
def loaderGuard (snap : StoreState) (sx sy : Int) : Bool :=
  !(snap.chunks.lookup (getChunkKey sx sy)).isSome &&
  !((snap.loadingChunks.lookup (getChunkKey sx sy)).getD false)

/-- One loader iteration: the chunk coordinates, the outcome of its
`getCanvasSection` fetch, and the external store operations applied by
other tasks during the await of that fetch. -/
abbrev LoaderItem := (Int × Int) × Except String CanvasChunk × List StoreOp

/-- Apply a list of operations, collecting every intermediate state and
the final state. -/
def applyOps : StoreState → List StoreOp → List StoreState × StoreState
  | s, [] => ([], s)
  | s, op :: rest =>
    let s1 := applyOp s op
    let (tr, f) := applyOps s1 rest
    (s1 :: tr, f)

/-- The observable store states of one `loadVisibleChunks` invocation
(`Canvas.tsx` lines 77-110) interleaved with external operations: for
each chunk whose guard (evaluated on the render-time snapshot `snap`)
passes, the loader marks the chunk loading, the iteration's external
operations run during the await, and then the fetch outcome is merged
(`setChunk`) or the loading mark is cleared (`setChunkLoading false`).
Chunks whose guard fails are skipped without awaiting. -/
def loaderTrace (snap : StoreState) :
    StoreState → List LoaderItem → List StoreState
  | _, [] => []
  | s, ((sx, sy), fr, ext) :: rest =>
    if loaderGuard snap sx sy then
      let s1 := setChunkLoading s sx sy true
      let (mids, s2) := applyOps s1 ext
      let s3 := match fr with
        | .ok data => setChunk s2 sx sy data
        | .error _ => setChunkLoading s2 sx sy false
      s1 :: (mids ++ s3 :: loaderTrace snap s3 rest)
    else loaderTrace snap s rest

/-- The exclusion invariant of the spec: no chunk key is simultaneously
present and marked loading. -/
def chunkInv (s : StoreState) : Prop :=
  ∀ p ∈ s.chunks, (s.loadingChunks.lookup p.1).getD false = false

instance (s : StoreState) : Decidable (chunkInv s) := by
  unfold chunkInv
  infer_instance

theorem lookup_isSome_of_mem {α : Type} {m : List (String × α)}
    {p : String × α} (hp : p ∈ m) : (m.lookup p.1).isSome := by
  induction m with
  | nil => cases hp
  | cons q m ih =>
    rcases List.mem_cons.1 hp with rfl | hp'
    · simp [List.lookup]
    · by_cases hq : p.1 = q.1
      · simp [List.lookup, hq]
      · have hne : (p.1 == q.1) = false := beq_eq_false_iff_ne.2 hq
        simp only [List.lookup, hne]
        exact ih hp'

theorem chunkInv_setChunk (s : StoreState) (h : chunkInv s) (sx sy : Int)
    (c : CanvasChunk) : chunkInv (setChunk s sx sy c) := by
  intro p hp
  have hmem := jsSet_mem (m := s.chunks) (k := getChunkKey sx sy) (v := c) hp
  by_cases hk : p.1 = getChunkKey sx sy
  · show ((jsSet s.loadingChunks (getChunkKey sx sy) false).lookup p.1).getD
      false = false
    rw [hk, jsSet_lookup_eq]
    rfl
  · rcases hmem with h1 | h1
    · exact absurd h1 hk
    · show ((jsSet s.loadingChunks (getChunkKey sx sy) false).lookup p.1).getD
        false = false
      rw [jsSet_lookup_ne _ _ _ _ hk]
      exact h p h1

theorem chunkInv_setChunkLoading_true (s : StoreState) (h : chunkInv s)
    (sx sy : Int)
    (habs : s.chunks.lookup (getChunkKey sx sy) = none) :
    chunkInv (setChunkLoading s sx sy true) := by
  intro p hp
  by_cases hk : p.1 = getChunkKey sx sy
  · exfalso
    have hs := lookup_isSome_of_mem (show p ∈ s.chunks from hp)
    rw [hk, habs] at hs
    cases hs
  · show ((jsSet s.loadingChunks (getChunkKey sx sy) true).lookup p.1).getD
      false = false
    rw [jsSet_lookup_ne _ _ _ _ hk]
    exact h p hp

theorem chunkInv_setChunkLoading_false (s : StoreState) (h : chunkInv s)
    (sx sy : Int) : chunkInv (setChunkLoading s sx sy false) := by
  intro p hp
  by_cases hk : p.1 = getChunkKey sx sy
  · show ((jsSet s.loadingChunks (getChunkKey sx sy) false).lookup p.1).getD
      false = false
    rw [hk, jsSet_lookup_eq]
    rfl
  · show ((jsSet s.loadingChunks (getChunkKey sx sy) false).lookup p.1).getD
      false = false
    rw [jsSet_lookup_ne _ _ _ _ hk]
    exact h p hp

theorem loaderTrace_inv (snap : StoreState) :
    ∀ (items : List LoaderItem) (s : StoreState),
      chunkInv s →
      (items.map (fun it => getChunkKey it.1.1 it.1.2)).Nodup →
      (∀ it ∈ items, it.2.2 = ([] : List StoreOp)) →
      (∀ it ∈ items, s.chunks.lookup (getChunkKey it.1.1 it.1.2) =
        snap.chunks.lookup (getChunkKey it.1.1 it.1.2)) →
      ∀ t ∈ loaderTrace snap s items, chunkInv t := by
  intro items
  induction items with
  | nil =>
    intro s _ _ _ _ t ht
    cases ht
  | cons it rest ih =>
    obtain ⟨⟨sx, sy⟩, fr, ext⟩ := it
    intro s hinv hnd hext hagree t ht
    have hext0 : ext = [] := hext _ (List.mem_cons_self _ _)
    subst hext0
    rcases List.nodup_cons.1 hnd with ⟨hnotin, hnd'⟩
    have hkey_ne : ∀ it' ∈ rest,
        getChunkKey it'.1.1 it'.1.2 ≠ getChunkKey sx sy := by
      intro it' hit' hcon
      apply hnotin
      show getChunkKey sx sy ∈
        List.map (fun it => getChunkKey it.1.1 it.1.2) rest
      rw [← hcon]
      exact List.mem_map_of_mem _ hit'
    by_cases hg : loaderGuard snap sx sy = true
    · have habs_snap : (snap.chunks.lookup (getChunkKey sx sy)).isSome = false := by
        have hg' := hg
        unfold loaderGuard at hg'
        simp only [Bool.and_eq_true, Bool.not_eq_true'] at hg'
        exact hg'.1
      have habs : s.chunks.lookup (getChunkKey sx sy) = none := by
        have := hagree _ (List.mem_cons_self _ _)
        rw [this]
        cases hlk : snap.chunks.lookup (getChunkKey sx sy) with
        | none => rfl
        | some c => rw [hlk] at habs_snap; cases habs_snap
      have hinv1 : chunkInv (setChunkLoading s sx sy true) :=
        chunkInv_setChunkLoading_true s hinv sx sy habs
      have hinv3 : ∀ s3, (∀ k, k ≠ getChunkKey sx sy →
          s3.chunks.lookup k = s.chunks.lookup k) → chunkInv s3 →
          (∀ t' ∈ loaderTrace snap s3 rest, chunkInv t') := by
        intro s3 hframe hinv3
        apply ih s3 hinv3 hnd' (fun it' hit' => hext _ (List.mem_cons_of_mem _ hit'))
        intro it' hit'
        rw [hframe _ (hkey_ne it' hit')]
        exact hagree _ (List.mem_cons_of_mem _ hit')
      simp only [loaderTrace, hg, if_true, applyOps] at ht
      cases fr with
      | ok data =>
        simp only [List.nil_append] at ht
        rcases List.mem_cons.1 ht with rfl | ht'
        · exact hinv1
        · rcases List.mem_cons.1 ht' with rfl | ht''
          · exact chunkInv_setChunk _ hinv1 sx sy data
          · refine hinv3 _ ?_ (chunkInv_setChunk _ hinv1 sx sy data) t ht''
            intro k hk
            show (jsSet s.chunks (getChunkKey sx sy) data).lookup k =
              s.chunks.lookup k
            exact jsSet_lookup_ne _ _ _ _ hk
      | error e =>
        simp only [List.nil_append] at ht
        rcases List.mem_cons.1 ht with rfl | ht'
        · exact hinv1
        · rcases List.mem_cons.1 ht' with rfl | ht''
          · exact chunkInv_setChunkLoading_false _ hinv1 sx sy
          · refine hinv3 _ ?_ (chunkInv_setChunkLoading_false _ hinv1 sx sy) t ht''
            intro k hk
            rfl
    · simp only [loaderTrace, hg, if_false] at ht
      refine ih s hinv hnd'
        (fun it' hit' => hext _ (List.mem_cons_of_mem _ hit'))
        (fun it' hit' => hagree _ (List.mem_cons_of_mem _ hit')) t ht

/-- C7 (amended).  Every merge is atomic per chunk: a single `setChunk`
update installs the chunk under its key and clears its loading mark, so
no state exposes a partially overwritten chunk; and along any run of
the chunk-loading path whose render-time snapshot is still current when
it starts and into which no external operation is interleaved (and
whose chunk list has pairwise distinct keys, as `getVisibleChunks`
produces), every observable state satisfies the exclusion invariant —
a chunk key is in at most one of {present, loading}.  (With a
concurrent merge interleaved between the snapshot and the mark the
invariant fails: see the counterexample.) -/
theorem chunk_state_exclusion (s : StoreState) (items : List LoaderItem)
    (hinv : chunkInv s)
    (hnd : (items.map (fun it => getChunkKey it.1.1 it.1.2)).Nodup)
    (hext : ∀ it ∈ items, it.2.2 = ([] : List StoreOp)) :
    (∀ (s' : StoreState) (sx sy : Int) (c : CanvasChunk),
      (setChunk s' sx sy c).chunks.lookup (getChunkKey sx sy) = some c ∧
      (setChunk s' sx sy c).loadingChunks.lookup (getChunkKey sx sy) =
        some false) ∧
    ∀ t ∈ loaderTrace s s items, chunkInv t := by
  refine ⟨fun s' sx sy c => ⟨jsSet_lookup_eq _ _ _, jsSet_lookup_eq _ _ _⟩, ?_⟩
  exact loaderTrace_inv s items s hinv hnd hext (fun it _ => rfl)

/-- A small concrete chunk for the race counterexample. -/
def chunkA : CanvasChunk :=
  [[{ x := 0, y := 0, color := "#EFEFEF", lastPainted := none }]]

/-- The racing schedule: the loader (snapshot taken over the empty
store) processes chunks (0,0) and (20,0); while it awaits the fetch of
(0,0), the periodic refresh path merges chunk (20,0). -/
def raceItems : List LoaderItem :=
  [((0, 0), .ok chunkA, [.mergeChunk 20 0 chunkA]),
   ((20, 0), .ok chunkA, [])]

/-- C7 counterexample.  Under the interleaving above, the loader's
second iteration still sees the stale snapshot, marks chunk (20,0) as
loading although the periodic merge has already installed it, and the
fourth observable state of the run has the key "20,0" both present in
`chunks` and flagged in `loadingChunks` — the invariant is violated. -/
theorem chunk_state_exclusion_race :
    (loaderTrace initialStore initialStore raceItems).length = 5 ∧
    ¬ chunkInv ((loaderTrace initialStore initialStore raceItems).getD 3
      initialStore) := by
  constructor
  · decide
  · decide

/-- Witness for C7: the exclusion theorem on a singleton run over the
empty store with no interleaving. -/
theorem chunk_state_exclusion_witness :
    (chunkInv initialStore ∧
     (([((0, 0), Except.ok chunkA, [])] : List LoaderItem).map
        (fun it => getChunkKey it.1.1 it.1.2)).Nodup ∧
     (∀ it ∈ ([((0, 0), Except.ok chunkA, [])] : List LoaderItem),
        it.2.2 = ([] : List StoreOp))) ∧
    ((∀ (s' : StoreState) (sx sy : Int) (c : CanvasChunk),
      (setChunk s' sx sy c).chunks.lookup (getChunkKey sx sy) = some c ∧
      (setChunk s' sx sy c).loadingChunks.lookup (getChunkKey sx sy) =
        some false) ∧
    ∀ t ∈ loaderTrace initialStore initialStore
        [((0, 0), Except.ok chunkA, [])], chunkInv t) :=
  ⟨⟨by decide, by decide, by decide⟩,
   chunk_state_exclusion initialStore [((0, 0), Except.ok chunkA, [])]
     (by decide) (by decide) (by decide)⟩

/-! Claim C8: totality of the chunked read path
(`EthersCanvasService.getCanvasSection`, `src/api/canvasService.ts`
lines 94-178). -/

/-- DEFAULT_COLOR, from `src/config/constants.ts`. -/
def DEFAULT_COLOR : String := "#EFEFEF"

/-- bytes3ToHex, from `src/config/contracts.ts`:
`"#" + bytes3.substring(2).padStart(6, "0")`. -/
def bytes3ToHex (bytes3 : String) : String :=
  let hex := bytes3.toList.drop 2
  ⟨'#' :: (List.replicate (6 - hex.length) '0' ++ hex)⟩

/-- MAX_CHUNK_SIZE, from `src/api/canvasService.ts` line 103. -/
def MAX_CHUNK_SIZE : Nat := 10

/-- processCanvasSectionData, from `src/lib/web3utils.ts` lines 284-322:
map the raw bytes3 grid to pixels carrying absolute coordinates (the
black-pixel logging is omitted as pure logging). -/
def processCanvasSectionData (rawData : List (List String))
    (startX startY : Int) : List (List Pixel) :=
  rawData.mapIdx fun y row =>
    row.mapIdx fun x c =>
      { x := startX + x, y := startY + y, color := bytes3ToHex c,
        lastPainted := none }

/-- The initial result grid of `getCanvasSection` (lines 106-117) as a
cell function: every cell holds the default-color pixel at its absolute
coordinates.  A cell value of `none` represents JavaScript `undefined`
(conceivable only after a malformed merge); the array shape itself is
fixed at construction and materialized at the end. -/
def sectionInit (startX startY : Int) : Nat → Nat → Option Pixel :=
  fun y x =>
    some { x := startX + x, y := startY + y, color := DEFAULT_COLOR,
           lastPainted := none }

/-- One subchunk merge (lines 144-149):
`result[chunkY+y][chunkX+x] = chunkData[y][x]` for `y < chunkHeight`,
`x < chunkWidth`, row by row.  A missing row of `chunkData` throws a
TypeError before anything of that row is written and the inner catch
abandons the rest of this subchunk, so only rows `y < chunkData.length`
are merged; a missing cell of an existing row assigns `undefined`
(`none`).  Each cell is written at most once, so the loop is rendered
pointwise. -/
def mergeSubchunk (g : Nat → Nat → Option Pixel)
    (chunkData : List (List Pixel)) (chunkX chunkY cw ch : Nat) :
    Nat → Nat → Option Pixel :=
  fun y x =>
    if chunkY ≤ y ∧ y < chunkY + min ch chunkData.length ∧
        chunkX ≤ x ∧ x < chunkX + cw then
      (chunkData[y - chunkY]?).bind fun row => row[x - chunkX]?
    else g y x

/-- The subchunk origins (chunkY, chunkX) visited by the two nested
fetch loops (lines 120-124): `chunkY` ascending in steps of
MAX_CHUNK_SIZE (outer loop), `chunkX` likewise (inner loop). -/
def subchunkOrigins (width height : Nat) : List (Nat × Nat) :=
  ((List.range ((height + MAX_CHUNK_SIZE - 1) / MAX_CHUNK_SIZE)).map
      (fun i => MAX_CHUNK_SIZE * i)).flatMap fun cy =>
    ((List.range ((width + MAX_CHUNK_SIZE - 1) / MAX_CHUNK_SIZE)).map
      (fun i => MAX_CHUNK_SIZE * i)).map fun cx => (cy, cx)

/-- One iteration of the fetch loop for the subchunk at origin
`o = (chunkY, chunkX)` (lines 126-153): compute the clamped subchunk
size, fetch it, and on success merge the processed data; on failure
leave the present cells (default colours) in place. -/
def sectionStep
    (fetch : Int → Int → Nat → Nat → Except String (List (List String)))
    (startX startY : Int) (width height : Nat)
    (g : Nat → Nat → Option Pixel) (o : Nat × Nat) :
    Nat → Nat → Option Pixel :=
  let cw := min MAX_CHUNK_SIZE (width - o.2)
  let ch := min MAX_CHUNK_SIZE (height - o.1)
  match fetch (startX + o.2) (startY + o.1) cw ch with
  | .error _ => g
  | .ok raw =>
    mergeSubchunk g
      (processCanvasSectionData raw (startX + o.2) (startY + o.1))
      o.2 o.1 cw ch

/-- getCanvasSection, from `src/api/canvasService.ts` lines 94-178:
build the default grid, fetch and merge the subchunks in loop order,
and resolve with the result.  Every failure path is caught (per
subchunk at lines 150-153, globally at lines 158-177), so the promise
always resolves. -/
def sectionGrid
    (fetch : Int → Int → Nat → Nat → Except String (List (List String)))
    (startX startY : Int) (width height : Nat) : Nat → Nat → Option Pixel :=
  (subchunkOrigins width height).foldl
    (sectionStep fetch startX startY width height)
    (sectionInit startX startY)

def getCanvasSectionRun
    (fetch : Int → Int → Nat → Nat → Except String (List (List String)))
    (startX startY : Int) (width height : Nat) :
    Except String (List (List (Option Pixel))) :=
  .ok ((List.range height).map fun y =>
    (List.range width).map fun x =>
      sectionGrid fetch startX startY width height y x)

/-- The value that the subchunk covering cell `(y, x)` writes into that
cell: `none` when its fetch failed or the merge never reached the
cell (so the initial value stands). -/
def subchunkCellOf (startX startY : Int) (width height y x : Nat) :
    Except String (List (List String)) → Option (Option Pixel)
  | .error _ => none
  | .ok raw =>
    let cy := MAX_CHUNK_SIZE * (y / MAX_CHUNK_SIZE)
    let cx := MAX_CHUNK_SIZE * (x / MAX_CHUNK_SIZE)
    let cw := min MAX_CHUNK_SIZE (width - cx)
    let ch := min MAX_CHUNK_SIZE (height - cy)
    let cd := processCanvasSectionData raw (startX + cx) (startY + cy)
    if cy ≤ y ∧ y < cy + min ch cd.length ∧ cx ≤ x ∧ x < cx + cw then
      some ((cd[y - cy]?).bind fun row => row[x - cx]?)
    else none

def subchunkCell
    (fetch : Int → Int → Nat → Nat → Except String (List (List String)))
    (startX startY : Int) (width height y x : Nat) : Option (Option Pixel) :=
  let cy := MAX_CHUNK_SIZE * (y / MAX_CHUNK_SIZE)
  let cx := MAX_CHUNK_SIZE * (x / MAX_CHUNK_SIZE)
  let cw := min MAX_CHUNK_SIZE (width - cx)
  let ch := min MAX_CHUNK_SIZE (height - cy)
  subchunkCellOf startX startY width height y x
    (fetch (startX + cx) (startY + cy) cw ch)

/-- The fetch of the subchunk covering cell `(y, x)` fails. -/
def subfetchFails
    (fetch : Int → Int → Nat → Nat → Except String (List (List String)))
    (startX startY : Int) (width height y x : Nat) : Prop :=
  ∃ e, fetch (startX + (↑(MAX_CHUNK_SIZE * (x / MAX_CHUNK_SIZE)) : Int))
      (startY + (↑(MAX_CHUNK_SIZE * (y / MAX_CHUNK_SIZE)) : Int))
      (min MAX_CHUNK_SIZE (width - MAX_CHUNK_SIZE * (x / MAX_CHUNK_SIZE)))
      (min MAX_CHUNK_SIZE (height - MAX_CHUNK_SIZE * (y / MAX_CHUNK_SIZE))) =
    .error e

theorem subchunkOrigins_form (width height : Nat) :
    ∀ o ∈ subchunkOrigins width height,
      ∃ iy ix : Nat, o = (MAX_CHUNK_SIZE * iy, MAX_CHUNK_SIZE * ix) := by
  intro o ho
  rcases List.mem_flatMap.1 ho with ⟨cy, hcy, hin⟩
  rcases List.mem_map.1 hcy with ⟨iy, -, rfl⟩
  rcases List.mem_map.1 hin with ⟨cx, hcx, rfl⟩
  rcases List.mem_map.1 hcx with ⟨ix, -, rfl⟩
  exact ⟨iy, ix, rfl⟩

theorem subchunkOrigins_nodup (width height : Nat) :
    (subchunkOrigins width height).Nodup := by
  unfold subchunkOrigins
  rw [List.nodup_flatMap]
  constructor
  · intro cy _
    apply List.Nodup.map
    · intro a b hab
      cases hab
      rfl
    · apply List.Nodup.map
      · intro a b hab
        simpa [MAX_CHUNK_SIZE] using hab
      · exact List.nodup_range _
  · rw [List.pairwise_map]
    apply List.Pairwise.imp ?_ (List.pairwise_lt_range _)
    intro ia ib hlt p hp1 hp2
    rcases List.mem_map.1 hp1 with ⟨cx1, -, rfl⟩
    rcases List.mem_map.1 hp2 with ⟨cx2, -, he⟩
    injection he with h1 h2
    simp only [MAX_CHUNK_SIZE] at h1
    omega

theorem subchunkOrigins_mem (width height y x : Nat)
    (hy : y < height) (hx : x < width) :
    (MAX_CHUNK_SIZE * (y / MAX_CHUNK_SIZE),
     MAX_CHUNK_SIZE * (x / MAX_CHUNK_SIZE)) ∈ subchunkOrigins width height := by
  unfold subchunkOrigins
  rw [List.mem_flatMap]
  refine ⟨MAX_CHUNK_SIZE * (y / MAX_CHUNK_SIZE),
    List.mem_map_of_mem _ (List.mem_range.2 ?_), ?_⟩
  · simp only [MAX_CHUNK_SIZE]
    omega
  · apply List.mem_map_of_mem
    apply List.mem_map_of_mem
    apply List.mem_range.2
    simp only [MAX_CHUNK_SIZE]
    omega

theorem sectionStep_at_origin
    (fetch : Int → Int → Nat → Nat → Except String (List (List String)))
    (startX startY : Int) (width height : Nat) (y x : Nat)
    (g : Nat → Nat → Option Pixel) :
    sectionStep fetch startX startY width height g
      (MAX_CHUNK_SIZE * (y / MAX_CHUNK_SIZE),
       MAX_CHUNK_SIZE * (x / MAX_CHUNK_SIZE)) y x =
    (subchunkCell fetch startX startY width height y x).getD (g y x) := by
  simp only [sectionStep, subchunkCell, subchunkCellOf]
  generalize fetch
      (startX + (↑(MAX_CHUNK_SIZE * (x / MAX_CHUNK_SIZE)) : Int))
      (startY + (↑(MAX_CHUNK_SIZE * (y / MAX_CHUNK_SIZE)) : Int))
      (min MAX_CHUNK_SIZE (width - MAX_CHUNK_SIZE * (x / MAX_CHUNK_SIZE)))
      (min MAX_CHUNK_SIZE (height - MAX_CHUNK_SIZE * (y / MAX_CHUNK_SIZE))) = r
  cases r with
  | error e => rfl
  | ok raw =>
    simp only [mergeSubchunk]
    split
    · rfl
    · rfl

theorem sectionStep_ne
    (fetch : Int → Int → Nat → Nat → Except String (List (List String)))
    (startX startY : Int) (width height : Nat) (y x : Nat)
    (g : Nat → Nat → Option Pixel) (iy ix : Nat)
    (hne : (MAX_CHUNK_SIZE * iy, MAX_CHUNK_SIZE * ix) ≠
      (MAX_CHUNK_SIZE * (y / MAX_CHUNK_SIZE),
       MAX_CHUNK_SIZE * (x / MAX_CHUNK_SIZE))) :
    sectionStep fetch startX startY width height g
      (MAX_CHUNK_SIZE * iy, MAX_CHUNK_SIZE * ix) y x = g y x := by
  simp only [sectionStep]
  generalize fetch (startX + (↑(MAX_CHUNK_SIZE * ix) : Int))
      (startY + (↑(MAX_CHUNK_SIZE * iy) : Int))
      (min MAX_CHUNK_SIZE (width - MAX_CHUNK_SIZE * ix))
      (min MAX_CHUNK_SIZE (height - MAX_CHUNK_SIZE * iy)) = r
  cases r with
  | error e => rfl
  | ok raw =>
    simp only [mergeSubchunk]
    split
    · next hcond =>
      exfalso
      apply hne
      obtain ⟨hy1, hy2, hx1, hx2⟩ := hcond
      have hy2' : y < MAX_CHUNK_SIZE * iy + MAX_CHUNK_SIZE :=
        Nat.lt_of_lt_of_le hy2 (Nat.add_le_add_left
          (le_trans (Nat.min_le_left _ _) (Nat.min_le_left _ _)) _)
      have hx2' : x < MAX_CHUNK_SIZE * ix + MAX_CHUNK_SIZE :=
        Nat.lt_of_lt_of_le hx2 (Nat.add_le_add_left (Nat.min_le_left _ _) _)
      have hiy : iy = y / MAX_CHUNK_SIZE := by
        simp only [MAX_CHUNK_SIZE] at hy1 hy2' ⊢
        omega
      have hix : ix = x / MAX_CHUNK_SIZE := by
        simp only [MAX_CHUNK_SIZE] at hx1 hx2' ⊢
        omega
      rw [hiy, hix]
    · rfl

theorem sectionFold_char
    (fetch : Int → Int → Nat → Nat → Except String (List (List String)))
    (startX startY : Int) (width height : Nat) (y x : Nat) :
    ∀ (L : List (Nat × Nat)),
      (∀ o ∈ L, ∃ iy ix : Nat,
        o = (MAX_CHUNK_SIZE * iy, MAX_CHUNK_SIZE * ix)) →
      L.Nodup →
      ∀ g : Nat → Nat → Option Pixel,
        (L.foldl (sectionStep fetch startX startY width height) g) y x =
          if (MAX_CHUNK_SIZE * (y / MAX_CHUNK_SIZE),
              MAX_CHUNK_SIZE * (x / MAX_CHUNK_SIZE)) ∈ L then
            (subchunkCell fetch startX startY width height y x).getD (g y x)
          else g y x := by
  intro L
  induction L with
  | nil =>
    intro _ _ g
    simp
  | cons o L' ih =>
    intro hform hnd g
    rcases List.nodup_cons.1 hnd with ⟨hnotin, hnd'⟩
    rw [List.foldl_cons,
      ih (fun o' h => hform o' (List.mem_cons_of_mem _ h)) hnd']
    by_cases ho : o = (MAX_CHUNK_SIZE * (y / MAX_CHUNK_SIZE),
        MAX_CHUNK_SIZE * (x / MAX_CHUNK_SIZE))
    · have hnotin' : (MAX_CHUNK_SIZE * (y / MAX_CHUNK_SIZE),
          MAX_CHUNK_SIZE * (x / MAX_CHUNK_SIZE)) ∉ L' := ho ▸ hnotin
      rw [if_neg hnotin', if_pos (List.mem_cons.2 (Or.inl ho.symm)), ho,
        sectionStep_at_origin]
    · rcases hform o (List.mem_cons_self _ _) with ⟨iy, ix, rfl⟩
      rw [sectionStep_ne fetch startX startY width height y x g iy ix ho]
      by_cases hmem : (MAX_CHUNK_SIZE * (y / MAX_CHUNK_SIZE),
          MAX_CHUNK_SIZE * (x / MAX_CHUNK_SIZE)) ∈ L'
      · rw [if_pos hmem, if_pos (List.mem_cons_of_mem _ hmem)]
      · rw [if_neg hmem, if_neg (by
          rw [List.mem_cons]
          rintro (h | h)
          · exact ho h.symm
          · exact hmem h)]

theorem sectionGrid_char
    (fetch : Int → Int → Nat → Nat → Except String (List (List String)))
    (startX startY : Int) (width height : Nat) (y x : Nat)
    (hy : y < height) (hx : x < width) :
    sectionGrid fetch startX startY width height y x =
      (subchunkCell fetch startX startY width height y x).getD
        (sectionInit startX startY y x) := by
  unfold sectionGrid
  rw [sectionFold_char fetch startX startY width height y x
    (subchunkOrigins width height) (subchunkOrigins_form _ _)
    (subchunkOrigins_nodup _ _) (sectionInit startX startY),
    if_pos (subchunkOrigins_mem width height y x hy hx)]

/-- C8.  The chunked read path is total: for every start position and
non-negative width/height, and against any remote whose successful
region responses have the requested shape (the interface of §6), the
call always resolves (never rejects) with exactly `height` rows of
exactly `width` cells; every cell holds a pixel with coordinates
`(startX+x, startY+y)`; and every cell whose covering subchunk fetch
failed holds the configured placeholder colour instead of surfacing an
error. -/
theorem getCanvasSection_total
    (fetch : Int → Int → Nat → Nat → Except String (List (List String)))
    (startX startY : Int) (width height : Nat)
    (hconf : ∀ sx sy (w h : Nat) raw, fetch sx sy w h = .ok raw →
      raw.length = h ∧ ∀ row ∈ raw, row.length = w) :
    ∃ g, getCanvasSectionRun fetch startX startY width height = .ok g ∧
      g.length = height ∧
      (∀ row ∈ g, row.length = width) ∧
      (∀ y x : Nat, y < height → x < width →
        ∃ px, cellAt g y x = some (some px) ∧
          px.x = startX + x ∧ px.y = startY + y) ∧
      (∀ y x : Nat, y < height → x < width →
        subfetchFails fetch startX startY width height y x →
        cellAt g y x = some (some
          { x := startX + x, y := startY + y, color := DEFAULT_COLOR,
            lastPainted := none })) := by
  have hcellAt : ∀ (y x : Nat), y < height → x < width →
      cellAt ((List.range height).map fun yy =>
        (List.range width).map fun xx =>
          sectionGrid fetch startX startY width height yy xx) y x =
      some (sectionGrid fetch startX startY width height y x) := by
    intro y x hy hx
    unfold cellAt
    rw [List.getElem?_map, List.getElem?_range hy]
    simp only [Option.map_some', Option.some_bind]
    rw [List.getElem?_map, List.getElem?_range hx]
    simp
  refine ⟨_, rfl, by simp, ?_, ?_, ?_⟩
  · intro row hrow
    rcases List.mem_map.1 hrow with ⟨i, -, rfl⟩
    simp
  · intro y x hy hx
    rw [hcellAt y x hy hx, sectionGrid_char fetch startX startY width height
      y x hy hx]
    generalize hfetch : fetch
        (startX + (↑(MAX_CHUNK_SIZE * (x / MAX_CHUNK_SIZE)) : Int))
        (startY + (↑(MAX_CHUNK_SIZE * (y / MAX_CHUNK_SIZE)) : Int))
        (min MAX_CHUNK_SIZE (width - MAX_CHUNK_SIZE * (x / MAX_CHUNK_SIZE)))
        (min MAX_CHUNK_SIZE (height - MAX_CHUNK_SIZE * (y / MAX_CHUNK_SIZE)))
      = r at *
    cases r with
    | error e =>
      have hterm : subchunkCell fetch startX startY width height y x = none := by
        simp only [subchunkCell]
        rw [hfetch]
        rfl
      rw [hterm]
      exact ⟨_, rfl, rfl, rfl⟩
    | ok raw =>
      rcases hconf _ _ _ _ raw hfetch with ⟨hrawlen, hrows⟩
      have hcy_le : MAX_CHUNK_SIZE * (y / MAX_CHUNK_SIZE) ≤ y := by
        simp only [MAX_CHUNK_SIZE]; omega
      have hcx_le : MAX_CHUNK_SIZE * (x / MAX_CHUNK_SIZE) ≤ x := by
        simp only [MAX_CHUNK_SIZE]; omega
      have hylt : y - MAX_CHUNK_SIZE * (y / MAX_CHUNK_SIZE) < raw.length := by
        rw [hrawlen]
        simp only [MAX_CHUNK_SIZE] at *
        omega
      have hrowlen :
          raw[y - MAX_CHUNK_SIZE * (y / MAX_CHUNK_SIZE)].length =
            min MAX_CHUNK_SIZE
              (width - MAX_CHUNK_SIZE * (x / MAX_CHUNK_SIZE)) :=
        hrows _ (List.getElem_mem hylt)
      have hxlt : x - MAX_CHUNK_SIZE * (x / MAX_CHUNK_SIZE) <
          raw[y - MAX_CHUNK_SIZE * (y / MAX_CHUNK_SIZE)].length := by
        rw [hrowlen]
        simp only [MAX_CHUNK_SIZE] at *
        omega
      have hcdlen :
          (processCanvasSectionData raw
            (startX + (↑(MAX_CHUNK_SIZE * (x / MAX_CHUNK_SIZE)) : Int))
            (startY + (↑(MAX_CHUNK_SIZE * (y / MAX_CHUNK_SIZE)) : Int))).length
          = raw.length := by
        unfold processCanvasSectionData
        exact List.length_mapIdx
      have hterm : subchunkCell fetch startX startY width height y x =
          some (some
            { x := (startX + (↑(MAX_CHUNK_SIZE * (x / MAX_CHUNK_SIZE)) : Int))
                + ↑(x - MAX_CHUNK_SIZE * (x / MAX_CHUNK_SIZE))
              y := (startY + (↑(MAX_CHUNK_SIZE * (y / MAX_CHUNK_SIZE)) : Int))
                + ↑(y - MAX_CHUNK_SIZE * (y / MAX_CHUNK_SIZE))
              color := bytes3ToHex
                (raw[y - MAX_CHUNK_SIZE *
                  (y / MAX_CHUNK_SIZE)][x - MAX_CHUNK_SIZE * (x / MAX_CHUNK_SIZE)])
              lastPainted := none }) := by
        simp only [subchunkCell]
        rw [hfetch]
        simp only [subchunkCellOf]
        rw [if_pos ?hcond]
        case hcond =>
          refine ⟨hcy_le, ?_, hcx_le, ?_⟩
          · rw [hcdlen, hrawlen, Nat.min_self]
            simp only [MAX_CHUNK_SIZE] at *
            omega
          · simp only [MAX_CHUNK_SIZE] at *
            omega
        · unfold processCanvasSectionData
          rw [List.getElem?_mapIdx,
            List.getElem?_eq_getElem hylt]
          simp only [Option.map_some', Option.some_bind]
          rw [List.getElem?_mapIdx,
            List.getElem?_eq_getElem hxlt]
          simp
      rw [hterm]
      refine ⟨_, rfl, ?_, ?_⟩
      · show (startX + (↑(MAX_CHUNK_SIZE * (x / MAX_CHUNK_SIZE)) : Int))
          + ↑(x - MAX_CHUNK_SIZE * (x / MAX_CHUNK_SIZE)) = startX + ↑x
        rw [Nat.cast_sub hcx_le]
        ring
      · show (startY + (↑(MAX_CHUNK_SIZE * (y / MAX_CHUNK_SIZE)) : Int))
          + ↑(y - MAX_CHUNK_SIZE * (y / MAX_CHUNK_SIZE)) = startY + ↑y
        rw [Nat.cast_sub hcy_le]
        ring
  · intro y x hy hx hfail
    rcases hfail with ⟨e, he⟩
    have hterm : subchunkCell fetch startX startY width height y x = none := by
      simp only [subchunkCell]
      rw [he]
      rfl
    rw [hcellAt y x hy hx, sectionGrid_char fetch startX startY width height
      y x hy hx, hterm]
    rfl

/-- A conforming remote for the C8 witness: every region request is
answered with a white grid of exactly the requested shape. -/
def witnessFetch (_sx _sy : Int) (w h : Nat) :
    Except String (List (List String)) :=
  .ok (List.replicate h (List.replicate w "0xFFFFFF"))

theorem witnessFetch_conf :
    ∀ (sx sy : Int) (w h : Nat) raw, witnessFetch sx sy w h = .ok raw →
      raw.length = h ∧ ∀ row ∈ raw, row.length = w := by
  intro sx sy w h raw hraw
  cases hraw
  refine ⟨List.length_replicate _ _, ?_⟩
  intro row hrow
  rw [List.eq_of_mem_replicate hrow]
  exact List.length_replicate _ _

/-- Witness for C8: the totality theorem at the conforming remote for a
1×1 section at the origin. -/
theorem getCanvasSection_total_witness :
    (∀ (sx sy : Int) (w h : Nat) raw, witnessFetch sx sy w h = .ok raw →
      raw.length = h ∧ ∀ row ∈ raw, row.length = w) ∧
    ∃ g, getCanvasSectionRun witnessFetch 0 0 1 1 = .ok g ∧
      g.length = 1 ∧
      (∀ row ∈ g, row.length = 1) ∧
      (∀ y x : Nat, y < 1 → x < 1 →
        ∃ px, cellAt g y x = some (some px) ∧
          px.x = 0 + x ∧ px.y = 0 + y) ∧
      (∀ y x : Nat, y < 1 → x < 1 →
        subfetchFails witnessFetch 0 0 1 1 y x →
        cellAt g y x = some (some
          { x := 0 + x, y := 0 + y, color := DEFAULT_COLOR,
            lastPainted := none })) :=
  ⟨witnessFetch_conf, getCanvasSection_total witnessFetch 0 0 1 1
    witnessFetch_conf⟩
